import Mathlib

/-!
Verification of the configuration precedence / field-reconciliation engine of
`opencode_config.rs` (agents and commands stored redundantly as Markdown files
and JSON configuration layers).

Shallow embedding conventions:
* `serde_json::Value` is modelled by `JValue`; JSON objects are association
  lists (`List (String × JValue)`) queried through `alookup`, mirroring the
  map semantics of `serde_json::Map`.  Numbers are modelled as integers
  (floating point payloads are opaque to every operation verified here).
* The file system is a `World`: an association list from paths to file
  contents.  Paths are lists of path components.  A JSON layer file stores its
  parsed tree (`FileC.jsonF`), matching the spec, which treats JSON text
  parsing and comment stripping as external pre-processing; Markdown and
  prompt files store raw character contents (`FileC.textF`).
* YAML frontmatter serialization/parsing is external to the repository
  (serde_yaml); it is modelled from the spec as a concrete inverse pair
  (`yaml_ser` / `yaml_parse`) over a line-per-entry wire format.
* All async I/O is synchronous-per-call in the source; operations are pure
  state transformers `World → World × Option CfgError`.
-/

namespace OpenCfg

/-! ## Association list helpers (model of `serde_json::Map` / `HashMap`) -/

/-- Look up the first binding of a key in an association list. -/
def alookup {α β : Type} [DecidableEq α] : List (α × β) → α → Option β
  | [], _ => none
  | (k, v) :: r, a => if k = a then some v else alookup r a

/-- Insert a binding, replacing an existing binding in place (map `insert`). -/
def aset {α β : Type} [DecidableEq α] : List (α × β) → α → β → List (α × β)
  | [], a, b => [(a, b)]
  | (k, v) :: r, a, b => if k = a then (a, b) :: r else (k, v) :: aset r a b

/-- Remove every binding of a key (map `remove`). -/
def aerase {α β : Type} [DecidableEq α] : List (α × β) → α → List (α × β)
  | [], _ => []
  | (k, v) :: r, a => if k = a then aerase r a else (k, v) :: aerase r a

@[simp] theorem alookup_nil {α β : Type} [DecidableEq α] (a : α) :
    alookup ([] : List (α × β)) a = none := rfl

@[simp] theorem alookup_cons {α β : Type} [DecidableEq α] (k : α) (v : β) (r : List (α × β)) (a : α) :
    alookup ((k, v) :: r) a = if k = a then some v else alookup r a := rfl

theorem alookup_aset_self {α β : Type} [DecidableEq α] (l : List (α × β)) (a : α) (b : β) :
    alookup (aset l a b) a = some b := by
  induction l with
  | nil => simp [aset]
  | cons p r ih =>
    obtain ⟨k, v⟩ := p
    by_cases h : k = a <;> simp [aset, h, ih]

theorem alookup_aset_ne {α β : Type} [DecidableEq α] (l : List (α × β)) (a c : α) (b : β)
    (h : a ≠ c) : alookup (aset l a b) c = alookup l c := by
  induction l with
  | nil => simp [aset, alookup, h]
  | cons p r ih =>
    obtain ⟨k, v⟩ := p
    by_cases hk : k = a
    · subst hk
      simp [aset, alookup, h]
    · simp [aset, hk, alookup, ih]

theorem alookup_aerase_self {α β : Type} [DecidableEq α] (l : List (α × β)) (a : α) :
    alookup (aerase l a) a = none := by
  induction l with
  | nil => simp [aerase]
  | cons p r ih =>
    obtain ⟨k, v⟩ := p
    by_cases h : k = a <;> simp [aerase, h, ih]

theorem alookup_aerase_ne {α β : Type} [DecidableEq α] (l : List (α × β)) (a c : α)
    (h : a ≠ c) : alookup (aerase l a) c = alookup l c := by
  induction l with
  | nil => simp [aerase]
  | cons p r ih =>
    obtain ⟨k, v⟩ := p
    by_cases hk : k = a
    · subst hk
      simp [aerase, alookup, h, ih]
    · simp [aerase, hk, alookup, ih]

/-- Keys of an association list. -/
def akeys {α β : Type} (l : List (α × β)) : List α := l.map Prod.fst

/-- All keys distinct (model of `HashMap` key uniqueness). -/
def uniqueKeys {α β : Type} (l : List (α × β)) : Prop := (akeys l).Nodup

instance {α β : Type} [DecidableEq α] (l : List (α × β)) : Decidable (uniqueKeys l) :=
  inferInstanceAs (Decidable (akeys l).Nodup)

/-! ## JSON values -/

/-- Model of `serde_json::Value`. -/
inductive JValue where
  | null : JValue
  | bool : Bool → JValue
  | num : Int → JValue
  | str : String → JValue
  | arr : List JValue → JValue
  | obj : List (String × JValue) → JValue

/-- Induction over `JValue` providing hypotheses for nested elements. -/
def JValue.ind {motive : JValue → Prop}
    (hnull : motive .null)
    (hbool : ∀ b, motive (.bool b))
    (hnum : ∀ i, motive (.num i))
    (hstr : ∀ s, motive (.str s))
    (harr : ∀ xs, (∀ x ∈ xs, motive x) → motive (.arr xs))
    (hobj : ∀ kvs, (∀ p ∈ kvs, motive p.2) → motive (.obj kvs)) :
    ∀ v, motive v
  | .null => hnull
  | .bool b => hbool b
  | .num i => hnum i
  | .str s => hstr s
  | .arr xs => harr xs (fun x hx =>
      have : sizeOf x < 1 + sizeOf xs := by
        have := List.sizeOf_lt_of_mem hx
        omega
      JValue.ind hnull hbool hnum hstr harr hobj x)
  | .obj kvs => hobj kvs (fun p hp =>
      have : sizeOf p.2 < 1 + sizeOf kvs := by
        have h1 := List.sizeOf_lt_of_mem hp
        obtain ⟨k, v⟩ := p
        simp at h1 ⊢
        omega
      JValue.ind hnull hbool hnum hstr harr hobj p.2)
termination_by v => sizeOf v

mutual

/-- Boolean equality on `JValue`. -/
def JValue.beq : JValue → JValue → Bool
  | .null, .null => true
  | .bool a, .bool b => a == b
  | .num a, .num b => a == b
  | .str a, .str b => a == b
  | .arr xs, .arr ys => JValue.beqList xs ys
  | .obj xs, .obj ys => JValue.beqObj xs ys
  | _, _ => false

def JValue.beqList : List JValue → List JValue → Bool
  | [], [] => true
  | x :: xs, y :: ys => JValue.beq x y && JValue.beqList xs ys
  | _, _ => false

def JValue.beqObj : List (String × JValue) → List (String × JValue) → Bool
  | [], [] => true
  | (k, v) :: xs, (k2, v2) :: ys => k == k2 && JValue.beq v v2 && JValue.beqObj xs ys
  | _, _ => false

end

theorem JValue.beq_iff : ∀ a b : JValue, (JValue.beq a b = true) ↔ a = b := by
  intro a
  induction a using JValue.ind with
  | hnull => intro b; cases b <;> simp [JValue.beq]
  | hbool x => intro b; cases b <;> simp [JValue.beq]
  | hnum x => intro b; cases b <;> simp [JValue.beq]
  | hstr x => intro b; cases b <;> simp [JValue.beq]
  | harr xs ih =>
    intro b
    cases b <;> simp [JValue.beq]
    case arr ys =>
      induction xs generalizing ys with
      | nil => cases ys <;> simp [JValue.beqList]
      | cons x xs ihx =>
        cases ys with
        | nil => simp [JValue.beqList]
        | cons y ys =>
          have hx := ih x (by simp)
          have hrest := ihx (fun z hz => ih z (by simp [hz])) ys
          simp [JValue.beqList, hx y, hrest]
  | hobj kvs ih =>
    intro b
    cases b <;> simp [JValue.beq]
    case obj ys =>
      induction kvs generalizing ys with
      | nil => cases ys <;> simp [JValue.beqObj]
      | cons p ps ihp =>
        obtain ⟨k, v⟩ := p
        cases ys with
        | nil => simp [JValue.beqObj]
        | cons q qs =>
          obtain ⟨k2, v2⟩ := q
          have hv := ih (k, v) (by simp)
          have hrest := ihp (fun z hz => ih z (by simp [hz])) qs
          simp [JValue.beqObj, hv v2, hrest, and_assoc]

instance : DecidableEq JValue := fun a b =>
  decidable_of_iff _ (JValue.beq_iff a b)

/-- Model of `Value::is_null`. -/
def JValue.isNull : JValue → Bool
  | .null => true
  | _ => false

/-- Model of `Value::as_str` (`Some` only for strings). -/
def JValue.asStr : JValue → Option String
  | .str s => some s
  | _ => none

/-- Model of `Value::as_object` (`Some` only for objects). -/
def JValue.asObj : JValue → Option (List (String × JValue))
  | .obj o => some o
  | _ => none

/-- Model of `Value::is_object`. -/
def JValue.isObj : JValue → Bool
  | .obj _ => true
  | _ => false

/-- Model of `Value::get(key)` on a JSON tree. -/
def jget : JValue → String → Option JValue
  | .obj o, k => alookup o k
  | _, _ => none

@[simp] theorem isNull_eq_true_iff (v : JValue) : v.isNull = true ↔ v = .null := by
  cases v <;> simp [JValue.isNull]

/-! ## Deep merge (`merge_values`) -/

mutual

/-- Model of `merge_values`: recursive overlay-wins merge.  For a pair of
objects, start from the base map and merge each overlay entry recursively
against the base entry (absent base entries count as `Null`); for any other
pairing the overlay value fully replaces the base value. -/
def merge_values : JValue → JValue → JValue
  | .obj baseMap, .obj overlayMap => .obj (mergeInto baseMap overlayMap)
  | _, overlay => overlay

/-- Fold of the overlay entries into the (copied) base map, mirroring the
`for (key, value) in overlay_map` loop of `merge_values`. -/
def mergeInto (acc : List (String × JValue)) : List (String × JValue) → List (String × JValue)
  | [] => acc
  | (k, v) :: rest =>
    mergeInto (aset acc k (merge_values ((alookup acc k).getD .null) v)) rest

end

/-! ## Prefix take/drop helpers -/

theorem takePre {α : Type} (l r : List α) : (l ++ r).take l.length = l := by
  induction l with
  | nil => simp
  | cons x xs ih => simp [ih]

theorem dropPre {α : Type} (l r : List α) : (l ++ r).drop l.length = r := by
  induction l with
  | nil => simp
  | cons x xs ih => simp [ih]

/-! ## A concrete invertible value wire format

Modelled from the spec: YAML frontmatter parsing/serialization is external
pre/post-processing (`parse_structured` and its inverse for writing, spec
section 1); the spec requires only that writing then parsing restores the
frontmatter map.  We realize the external codec concretely: each value is
serialized by `jenc` (an unambiguous prefix code using unary length fields)
and decoded by the fuel-indexed parser `jdecF`. -/

/-- Unary representation of a natural number. -/
def natUn (n : Nat) : List Char := List.replicate n '1'

/-- Decode a unary number terminated by a dot. -/
def decNat : List Char → Option (Nat × List Char)
  | [] => none
  | c :: r =>
    if c = '1' then (decNat r).map (fun p => (p.1 + 1, p.2))
    else if c = '.' then some (0, r) else none

theorem decNat_unary : ∀ (n : Nat) (rest : List Char),
    decNat (natUn n ++ '.' :: rest) = some (n, rest) := by
  intro n
  induction n with
  | zero => intro rest; simp [natUn, decNat]
  | succ m ih =>
    intro rest
    have h := ih rest
    simp only [natUn] at h
    simp [natUn, List.replicate_succ, decNat, h]

mutual

/-- Serialize a value with an unambiguous prefix code. -/
def jenc : JValue → List Char
  | .null => ['z']
  | .bool true => ['t']
  | .bool false => ['f']
  | .num i => 'i' :: (if i < 0 then 'm' else 'p') :: (natUn i.natAbs ++ ['.'])
  | .str s => 's' :: (natUn s.data.length ++ '.' :: s.data)
  | .arr xs => 'a' :: (natUn xs.length ++ '.' :: jencList xs)
  | .obj kvs => 'o' :: (natUn kvs.length ++ '.' :: jencObj kvs)

def jencList : List JValue → List Char
  | [] => []
  | x :: r => jenc x ++ jencList r

def jencObj : List (String × JValue) → List Char
  | [] => []
  | (k, v) :: r => natUn k.data.length ++ '.' :: (k.data ++ (jenc v ++ jencObj r))

end

mutual

/-- Structural size used as decoding fuel; one unit per value node. -/
def jsize : JValue → Nat
  | .null | .bool _ | .num _ | .str _ => 1
  | .arr xs => 1 + jsizeList xs
  | .obj kvs => 1 + jsizeObj kvs

def jsizeList : List JValue → Nat
  | [] => 0
  | x :: r => jsize x + jsizeList r

def jsizeObj : List (String × JValue) → Nat
  | [] => 0
  | (_, v) :: r => jsize v + jsizeObj r

end

/-- Decode `n` consecutive items with an item decoder. -/
def decodeN {A : Type} (dec : List Char → Option (A × List Char)) :
    Nat → List Char → Option (List A × List Char)
  | 0, s => some ([], s)
  | n + 1, s =>
    match dec s with
    | none => none
    | some (v, r) => (decodeN dec n r).map (fun p => (v :: p.1, p.2))

/-- Decode `n` consecutive key/value pairs (length-prefixed key, then value). -/
def decodeKVN {A : Type} (dec : List Char → Option (A × List Char)) :
    Nat → List Char → Option (List (String × A) × List Char)
  | 0, s => some ([], s)
  | n + 1, s =>
    match decNat s with
    | none => none
    | some (kl, r1) =>
      if kl ≤ r1.length then
        match dec (r1.drop kl) with
        | none => none
        | some (v, r2) =>
          (decodeKVN dec n r2).map (fun p => ((⟨r1.take kl⟩, v) :: p.1, p.2))
      else none

/-- Fuel-indexed decoder for the `jenc` wire format. -/
def jdecF : Nat → List Char → Option (JValue × List Char)
  | 0, _ => none
  | f + 1, s =>
    match s with
    | [] => none
    | c :: r =>
      if c = 'z' then some (.null, r)
      else if c = 't' then some (.bool true, r)
      else if c = 'f' then some (.bool false, r)
      else if c = 'i' then
        match r with
        | [] => none
        | sgn :: r2 =>
          if sgn = 'm' then (decNat r2).map (fun p => (.num (-(p.1 : Int)), p.2))
          else if sgn = 'p' then (decNat r2).map (fun p => (.num (p.1 : Int), p.2))
          else none
      else if c = 's' then
        match decNat r with
        | none => none
        | some (n, r1) =>
          if n ≤ r1.length then some (.str ⟨r1.take n⟩, r1.drop n) else none
      else if c = 'a' then
        match decNat r with
        | none => none
        | some (n, r1) => (decodeN (jdecF f) n r1).map (fun p => (.arr p.1, p.2))
      else if c = 'o' then
        match decNat r with
        | none => none
        | some (n, r1) => (decodeKVN (jdecF f) n r1).map (fun p => (.obj p.1, p.2))
      else none

theorem decodeN_enc (f : Nat)
    (hA : ∀ (v : JValue) (rest : List Char), jsize v ≤ f →
      jdecF f (jenc v ++ rest) = some (v, rest)) :
    ∀ (xs : List JValue) (rest : List Char), jsizeList xs ≤ f →
      decodeN (jdecF f) xs.length (jencList xs ++ rest) = some (xs, rest) := by
  intro xs
  induction xs with
  | nil => intro rest h; simp [jencList, decodeN]
  | cons x r ih =>
    intro rest h
    simp only [jsizeList] at h
    have hx : jsize x ≤ f := by omega
    have hr : jsizeList r ≤ f := by omega
    have h1 : jencList (x :: r) ++ rest = jenc x ++ (jencList r ++ rest) := by
      simp [jencList]
    rw [List.length_cons, h1]
    simp [decodeN, hA x (jencList r ++ rest) hx, ih rest hr]

theorem decodeKVN_enc (f : Nat)
    (hA : ∀ (v : JValue) (rest : List Char), jsize v ≤ f →
      jdecF f (jenc v ++ rest) = some (v, rest)) :
    ∀ (kvs : List (String × JValue)) (rest : List Char), jsizeObj kvs ≤ f →
      decodeKVN (jdecF f) kvs.length (jencObj kvs ++ rest) = some (kvs, rest) := by
  intro kvs
  induction kvs with
  | nil => intro rest h; simp [jencObj, decodeKVN]
  | cons p r ih =>
    obtain ⟨k, v⟩ := p
    intro rest h
    simp only [jsizeObj] at h
    have hv : jsize v ≤ f := by omega
    have hr : jsizeObj r ≤ f := by omega
    have h1 : jencObj ((k, v) :: r) ++ rest
        = natUn k.data.length ++ '.' :: (k.data ++ (jenc v ++ (jencObj r ++ rest))) := by
      simp [jencObj]
    rw [List.length_cons, h1]
    simp only [decodeKVN, decNat_unary]
    have hlen : k.data.length ≤ (k.data ++ (jenc v ++ (jencObj r ++ rest))).length := by
      simp
    rw [if_pos hlen, takePre, dropPre, hA v (jencObj r ++ rest) hv]
    simp [ih rest hr]

theorem jdecF_enc : ∀ (f : Nat) (v : JValue) (rest : List Char), jsize v ≤ f →
    jdecF f (jenc v ++ rest) = some (v, rest) := by
  intro f
  induction f with
  | zero =>
    intro v rest h
    exact absurd h (by cases v <;> simp [jsize])
  | succ f ih =>
    intro v rest hsz
    cases v with
    | null => simp [jenc, jdecF]
    | bool b => cases b <;> simp [jenc, jdecF]
    | num i =>
      by_cases hneg : i < 0
      · have h1 : jenc (.num i) ++ rest
            = 'i' :: 'm' :: (natUn i.natAbs ++ '.' :: rest) := by
          simp [jenc, hneg]
        rw [h1]
        simp [jdecF, decNat_unary, abs_of_neg hneg]
      · have h1 : jenc (.num i) ++ rest
            = 'i' :: 'p' :: (natUn i.natAbs ++ '.' :: rest) := by
          simp [jenc, hneg]
        rw [h1]
        have habs : ((i.natAbs : Int)) = i := by omega
        simp [jdecF, decNat_unary, habs]
    | str s =>
      have h1 : jenc (.str s) ++ rest
          = 's' :: (natUn s.data.length ++ '.' :: (s.data ++ rest)) := by
        simp [jenc]
      rw [h1]
      simp only [jdecF, decNat_unary]
      have hlen : s.data.length ≤ (s.data ++ rest).length := by simp
      simp [hlen, takePre, dropPre]
    | arr xs =>
      have hxs : jsizeList xs ≤ f := by
        simp [jsize] at hsz
        omega
      have h1 : jenc (.arr xs) ++ rest
          = 'a' :: (natUn xs.length ++ '.' :: (jencList xs ++ rest)) := by
        simp [jenc]
      rw [h1]
      simp [jdecF, decNat_unary, decodeN_enc f ih xs rest hxs]
    | obj kvs =>
      have hkvs : jsizeObj kvs ≤ f := by
        simp [jsize] at hsz
        omega
      have h1 : jenc (.obj kvs) ++ rest
          = 'o' :: (natUn kvs.length ++ '.' :: (jencObj kvs ++ rest)) := by
        simp [jenc]
      rw [h1]
      simp [jdecF, decNat_unary, decodeKVN_enc f ih kvs rest hkvs]

theorem jsizeList_le (xs : List JValue) (h : ∀ x ∈ xs, jsize x ≤ (jenc x).length) :
    jsizeList xs ≤ (jencList xs).length := by
  induction xs with
  | nil => simp [jsizeList, jencList]
  | cons x r ih =>
    have hx := h x (by simp)
    have hr := ih (fun y hy => h y (by simp [hy]))
    simp [jsizeList, jencList]
    omega

theorem jsizeObj_le (kvs : List (String × JValue)) (h : ∀ p ∈ kvs, jsize p.2 ≤ (jenc p.2).length) :
    jsizeObj kvs ≤ (jencObj kvs).length := by
  induction kvs with
  | nil => simp [jsizeObj, jencObj]
  | cons p r ih =>
    obtain ⟨k, v⟩ := p
    have hv := h (k, v) (by simp)
    have hr := ih (fun q hq => h q (by simp [hq]))
    simp only [jsizeObj, jencObj]
    simp at hv ⊢
    omega

theorem jsize_le_jenc : ∀ v : JValue, jsize v ≤ (jenc v).length := by
  intro v
  induction v using JValue.ind with
  | hnull => simp [jsize, jenc]
  | hbool b => cases b <;> simp [jsize, jenc]
  | hnum i => simp [jsize, jenc]
  | hstr s => simp [jsize, jenc]
  | harr xs ih =>
    have := jsizeList_le xs ih
    simp [jsize, jenc]
    omega
  | hobj kvs ih =>
    have := jsizeObj_le kvs ih
    simp [jsize, jenc]
    omega

/-! ## Escaping for the line-oriented frontmatter wire format -/

/-- Escape a character: backslash, newline and carriage return become
two-character escape sequences; all other characters are literal. -/
def escC (c : Char) : List Char :=
  if c = '\\' then ['\\', '\\']
  else if c = '\n' then ['\\', 'n']
  else if c = '\r' then ['\\', 'r']
  else [c]

def escL : List Char → List Char
  | [] => []
  | c :: r => escC c ++ escL r

mutual

def unescL : List Char → List Char
  | [] => []
  | c :: r => if c = '\\' then unescTail r else c :: unescL r

/-- Interpretation of the character following a backslash. -/
def unescTail : List Char → List Char
  | [] => []
  | e :: r2 => (if e = 'n' then '\n' else if e = 'r' then '\r' else e) :: unescL r2

end

theorem unescL_escL : ∀ l : List Char, unescL (escL l) = l := by
  intro l
  induction l with
  | nil => simp [escL, unescL]
  | cons c r ih =>
    by_cases h1 : c = '\\'
    · subst h1; simp [escL, escC, unescL, unescTail, ih]
    · by_cases h2 : c = '\n'
      · subst h2; simp [escL, escC, unescL, unescTail, ih]
      · by_cases h3 : c = '\r'
        · subst h3; simp [escL, escC, unescL, unescTail, ih]
        · simp [escL, escC, h1, h2, h3, unescL, ih]

theorem nl_not_mem_escC (c : Char) : '\n' ∉ escC c := by
  by_cases h1 : c = '\\'
  · subst h1; simp [escC]
  · by_cases h2 : c = '\n'
    · subst h2; simp [escC]
    · by_cases h3 : c = '\r'
      · subst h3; simp [escC]
      · simp only [escC, h1, h2, h3, if_false, List.mem_singleton]
        exact fun h => absurd h.symm h2

theorem nl_not_mem_escL (l : List Char) : '\n' ∉ escL l := by
  induction l with
  | nil => simp [escL]
  | cons c r ih =>
    simp only [escL, List.mem_append]
    rintro (h | h)
    · exact nl_not_mem_escC c h
    · exact ih h

theorem escL_ne_nil (c : Char) (r : List Char) : escL (c :: r) ≠ [] := by
  by_cases h1 : c = '\\'
  · subst h1; simp [escL, escC]
  · by_cases h2 : c = '\n'
    · subst h2; simp [escL, escC]
    · by_cases h3 : c = '\r'
      · subst h3; simp [escL, escC]
      · simp [escL, escC, h1, h2, h3]

theorem escL_head (c : Char) (r : List Char) (hc1 : c ≠ '\\') (hc2 : c ≠ '\n') (hc3 : c ≠ '\r') :
    (escL (c :: r)).head? = some c := by
  simp [escL, escC, hc1, hc2, hc3]

/-! ## The frontmatter map wire format (`yaml_ser` / `yaml_parse`) -/

/-- Unescaped content of one frontmatter line: length-prefixed key then value. -/
def lineContent (k : String) (v : JValue) : List Char :=
  natUn k.data.length ++ '.' :: (k.data ++ jenc v)

/-- One serialized (escaped) frontmatter line. -/
def yamlLine (p : String × JValue) : List Char := escL (lineContent p.1 p.2)

/-- Decode one unescaped line back into a key/value pair; the whole line must
be consumed. -/
def decodeLine (payload : List Char) : Option (String × JValue) :=
  match decNat payload with
  | none => none
  | some (kl, r1) =>
    if kl ≤ r1.length then
      match jdecF ((r1.drop kl).length + 1) (r1.drop kl) with
      | some (v, []) => some (⟨r1.take kl⟩, v)
      | _ => none
    else none

theorem decodeLine_round (k : String) (v : JValue) :
    decodeLine (lineContent k v) = some (k, v) := by
  have hfuel : jsize v ≤ (jenc v).length + 1 := le_trans (jsize_le_jenc v) (Nat.le_succ _)
  have hdec := jdecF_enc ((jenc v).length + 1) v [] hfuel
  rw [List.append_nil] at hdec
  have hk : (⟨k.data⟩ : String) = k := rfl
  simp [decodeLine, lineContent, decNat_unary, takePre, dropPre, hdec, hk]

/-- Join lines with newline separators (no trailing separator). -/
def joinNl : List (List Char) → List Char
  | [] => []
  | [p] => p
  | p :: q :: r => p ++ '\n' :: joinNl (q :: r)

/-- Split on newline separators. -/
def splitNl : List Char → List (List Char)
  | [] => [[]]
  | c :: r =>
    if c = '\n' then [] :: splitNl r
    else
      match splitNl r with
      | [] => [[c]]
      | h :: t => (c :: h) :: t

theorem splitNl_ne_nil (l : List Char) : splitNl l ≠ [] := by
  cases l with
  | nil => simp [splitNl]
  | cons c r =>
    by_cases h : c = '\n'
    · simp [splitNl, h]
    · simp only [splitNl, h, if_false]
      cases splitNl r <;> simp

theorem splitNl_nlFree (p : List Char) (h : '\n' ∉ p) : splitNl p = [p] := by
  induction p with
  | nil => simp [splitNl]
  | cons c r ih =>
    simp only [List.mem_cons] at h
    push_neg at h
    have hc : ¬c = '\n' := fun hh => h.1 hh.symm
    rw [splitNl, if_neg hc, ih h.2]

theorem splitNl_append (p t : List Char) (h : '\n' ∉ p) :
    splitNl (p ++ '\n' :: t) = p :: splitNl t := by
  induction p with
  | nil => simp [splitNl]
  | cons c r ih =>
    simp only [List.mem_cons] at h
    push_neg at h
    have hc : ¬c = '\n' := fun hh => h.1 hh.symm
    have ih2 := ih h.2
    rw [List.cons_append, splitNl, if_neg hc, ih2]

theorem splitNl_joinNl : ∀ ps : List (List Char), ps ≠ [] → (∀ p ∈ ps, '\n' ∉ p) →
    splitNl (joinNl ps) = ps := by
  intro ps
  induction ps with
  | nil => intro h; exact absurd rfl h
  | cons p r ih =>
    intro _ hmem
    cases r with
    | nil => simp [joinNl, splitNl_nlFree p (hmem p (by simp))]
    | cons q r2 =>
      rw [joinNl, splitNl_append p _ (hmem p (by simp)),
        ih (by simp) (fun x hx => hmem x (by simp [hx]))]

/-- Absence of a dash immediately after a newline (guarantees the serialized
frontmatter cannot contain a premature `---` delimiter). -/
def noNlDash : List Char → Bool
  | [] => true
  | [_] => true
  | c :: d :: r => !(c = '\n' && d = '-') && noNlDash (d :: r)

theorem noNlDash_tail (c : Char) (l : List Char) (h : noNlDash (c :: l) = true) :
    noNlDash l = true := by
  cases l with
  | nil => simp [noNlDash]
  | cons d r =>
    simp only [noNlDash, Bool.and_eq_true] at h
    exact h.2

theorem noNlDash_nlFree (p : List Char) (h : '\n' ∉ p) : noNlDash p = true := by
  induction p with
  | nil => simp [noNlDash]
  | cons c r ih =>
    simp only [List.mem_cons] at h
    push_neg at h
    cases r with
    | nil => simp [noNlDash]
    | cons d r2 =>
      have hr := ih h.2
      simp only [noNlDash, Bool.and_eq_true, hr, and_true, Bool.not_eq_true']
      simp only [Bool.and_eq_false_iff]
      left
      exact decide_eq_false (fun hh => h.1 hh.symm)

theorem noNlDash_nl_cons (t : List Char) (hd : t.head? ≠ some '-') (h : noNlDash t = true) :
    noNlDash ('\n' :: t) = true := by
  cases t with
  | nil => simp [noNlDash]
  | cons d r =>
    simp only [List.head?_cons, ne_eq, Option.some.injEq] at hd
    simp only [noNlDash, Bool.and_eq_true, h, and_true, Bool.not_eq_true']
    simp only [Bool.and_eq_false_iff]
    right
    exact decide_eq_false hd

theorem noNlDash_cons_append (p t : List Char) (hp : '\n' ∉ p)
    (ht : noNlDash ('\n' :: t) = true) : noNlDash (p ++ '\n' :: t) = true := by
  induction p with
  | nil => simpa using ht
  | cons c r ih =>
    simp only [List.mem_cons] at hp
    push_neg at hp
    have hr := ih hp.2
    cases r with
    | nil =>
      simp only [List.nil_append] at hr
      simp only [List.cons_append, List.nil_append, noNlDash, Bool.and_eq_true, hr, and_true,
        Bool.not_eq_true']
      simp only [Bool.and_eq_false_iff]
      left
      exact decide_eq_false (fun hh => hp.1 hh.symm)
    | cons e r2 =>
      simp only [List.cons_append] at hr ⊢
      simp only [noNlDash, Bool.and_eq_true, hr, and_true, Bool.not_eq_true']
      simp only [Bool.and_eq_false_iff]
      left
      exact decide_eq_false (fun hh => hp.1 hh.symm)

theorem joinNl_head (c : Char) (p : List Char) (r : List (List Char)) :
    (joinNl ((c :: p) :: r)).head? = some c := by
  cases r <;> simp [joinNl]

/-- Serialize a frontmatter map; the empty map serializes as a brace pair so
the frontmatter block is never empty (matching the external serializer). -/
def yaml_ser_core : List (String × JValue) → List Char
  | [] => ['{', '}']
  | p :: r => joinNl ((p :: r).map yamlLine)

/-- Full serialized frontmatter text, ending in a newline. -/
def yaml_ser (m : List (String × JValue)) : List Char := yaml_ser_core m ++ ['\n']

/-- Decode a list of (escaped) lines; any undecodable line poisons the whole
parse (the external parser fails as a whole, and the caller defaults to an
empty map). -/
def decodeLines : List (List Char) → Option (List (String × JValue))
  | [] => some []
  | l :: r =>
    match decodeLine (unescL l) with
    | none => none
    | some kv => (decodeLines r).map (kv :: ·)

/-- Parse a frontmatter block back into a map; parse failure yields the empty
map (the source uses `unwrap_or_default`). -/
def yaml_parse (y : List Char) : List (String × JValue) :=
  if y = ['{', '}'] then []
  else
    match decodeLines (splitNl y) with
    | some entries => entries
    | none => []

theorem decodeLines_map (m : List (String × JValue)) :
    decodeLines (m.map yamlLine) = some m := by
  induction m with
  | nil => simp [decodeLines]
  | cons p r ih =>
    obtain ⟨k, v⟩ := p
    simp [decodeLines, yamlLine, unescL_escL, decodeLine_round, ih]

theorem lineContent_shape (k : String) (v : JValue) :
    ∃ c rest, lineContent k v = c :: rest ∧ (c = '1' ∨ c = '.') := by
  cases h : k.data.length with
  | zero =>
    have hd : k.data = [] := List.eq_nil_of_length_eq_zero h
    exact ⟨'.', jenc v, by simp [lineContent, natUn, h, hd], Or.inr rfl⟩
  | succ n =>
    refine ⟨'1', List.replicate n '1' ++ '.' :: (k.data ++ jenc v), ?_, Or.inl rfl⟩
    simp [lineContent, natUn, h, List.replicate_succ]

theorem yamlLine_ne_nil (p : String × JValue) : yamlLine p ≠ [] := by
  obtain ⟨c, rest, heq, _⟩ := lineContent_shape p.1 p.2
  rw [yamlLine, heq]
  exact escL_ne_nil c rest

theorem yamlLine_head (p : String × JValue) :
    (yamlLine p).head? = some '1' ∨ (yamlLine p).head? = some '.' := by
  obtain ⟨c, rest, heq, hc⟩ := lineContent_shape p.1 p.2
  rw [yamlLine, heq]
  cases hc with
  | inl h => subst h; left; exact escL_head _ _ (by decide) (by decide) (by decide)
  | inr h => subst h; right; exact escL_head _ _ (by decide) (by decide) (by decide)

theorem noNlDash_joinNl (ps : List (List Char))
    (h : ∀ p ∈ ps, '\n' ∉ p ∧ p ≠ [] ∧ p.head? ≠ some '-') :
    noNlDash (joinNl ps) = true := by
  induction ps with
  | nil => decide
  | cons q r ih =>
    cases r with
    | nil => exact noNlDash_nlFree q (h q (by simp)).1
    | cons q2 r3 =>
      rw [joinNl]
      refine noNlDash_cons_append q _ (h q (by simp)).1 ?_
      refine noNlDash_nl_cons _ ?_ (ih (fun x hx => h x (by simp [hx])))
      obtain ⟨_, hne, hhd⟩ := h q2 (by simp)
      cases q2 with
      | nil => exact absurd rfl hne
      | cons c p2 =>
        rw [joinNl_head]
        simp only [List.head?_cons, ne_eq, Option.some.injEq] at hhd
        simp [hhd]

theorem noNlDash_yaml_core (m : List (String × JValue)) :
    noNlDash (yaml_ser_core m) = true := by
  cases m with
  | nil => decide
  | cons p r =>
    rw [yaml_ser_core]
    refine noNlDash_joinNl _ ?_
    intro q hq
    obtain ⟨x, _, hx⟩ := List.mem_map.mp hq
    subst hx
    refine ⟨nl_not_mem_escL _, yamlLine_ne_nil x, ?_⟩
    cases yamlLine_head x with
    | inl h => rw [h]; simp
    | inr h => rw [h]; simp

theorem yaml_parse_ser_core (m : List (String × JValue)) :
    yaml_parse (yaml_ser_core m) = m := by
  cases m with
  | nil => simp [yaml_ser_core, yaml_parse]
  | cons p r =>
    have hx : ∃ x, (yamlLine p).head? = some x ∧ (x = '1' ∨ x = '.') := by
      cases yamlLine_head p with
      | inl h => exact ⟨'1', h, Or.inl rfl⟩
      | inr h => exact ⟨'.', h, Or.inr rfl⟩
    obtain ⟨x, hhd, hx1⟩ := hx
    have hne : yaml_ser_core (p :: r) ≠ ['{', '}'] := by
      rw [yaml_ser_core]
      intro hcontra
      cases hL : yamlLine p with
      | nil => exact yamlLine_ne_nil p hL
      | cons c p2 =>
        have hh : (joinNl ((p :: r).map yamlLine)).head? = some c := by
          rw [List.map_cons, hL]
          exact joinNl_head c p2 (r.map yamlLine)
        rw [hcontra] at hh
        have hxc : x = c := by
          have h2 : (yamlLine p).head? = some c := by rw [hL]; rfl
          rw [hhd] at h2
          exact Option.some.inj h2
        subst hxc
        simp only [List.head?_cons, Option.some.injEq] at hh
        cases hx1 with
        | inl h1 => rw [h1] at hh; exact absurd hh (by decide)
        | inr h1 => rw [h1] at hh; exact absurd hh (by decide)
    rw [yaml_parse, if_neg hne, yaml_ser_core,
      splitNl_joinNl _ (by simp) (by
        intro q hq
        obtain ⟨y, _, hy⟩ := List.mem_map.mp hq
        subst hy
        exact nl_not_mem_escL _),
      decodeLines_map]

/-! ## Markdown record content (`write_md_file` body / `parse_md_file`) -/

/-- Whitespace characters recognized by the trimming model (the source uses
`str::trim`; ASCII whitespace suffices for every string this system writes). -/
def wsChar (c : Char) : Bool := c = ' ' || c = '\t' || c = '\n' || c = '\r'

/-- Trim whitespace from both ends (model of `str::trim`). -/
def trimChars (l : List Char) : List Char :=
  ((l.dropWhile wsChar).reverse.dropWhile wsChar).reverse

theorem trimChars_nl (b : List Char) : trimChars ('\n' :: b) = trimChars b := by
  simp [trimChars, List.dropWhile_cons, wsChar]

/-- Find the first frontmatter closing delimiter (the `\n---\n` sought by the
lazy group of the parsing regex, for line-feed-only content) and split
around it. -/
def splitD : List Char → Option (List Char × List Char)
  | [] => none
  | c :: r =>
    if (c :: r).take 5 = ['\n', '-', '-', '-', '\n'] then some ([], (c :: r).drop 5)
    else (splitD r).map (fun p => (c :: p.1, p.2))

theorem splitD_delim : ∀ (A B : List Char), noNlDash A = true →
    splitD (A ++ '\n' :: '-' :: '-' :: '-' :: '\n' :: B) = some (A, B) := by
  intro A
  induction A with
  | nil =>
    intro B _
    simp [splitD]
  | cons c A2 ih =>
    intro B hnd
    rw [List.cons_append, splitD]
    have hcond : ¬((c :: (A2 ++ '\n' :: '-' :: '-' :: '-' :: '\n' :: B)).take 5
        = ['\n', '-', '-', '-', '\n']) := by
      cases A2 with
      | nil => simp
      | cons a A3 =>
        intro hc
        simp only [List.cons_append, List.take_succ_cons, List.cons.injEq] at hc
        obtain ⟨hc1, hc2, _⟩ := hc
        rw [hc1, hc2] at hnd
        simp [noNlDash] at hnd
    rw [if_neg hcond, ih B (noNlDash_tail c A2 hnd)]
    rfl

/-- Parsed Markdown record: frontmatter map plus (trimmed) body. -/
structure MdData where
  frontmatter : List (String × JValue)
  body : List Char
  deriving DecidableEq

/-- Null-valued frontmatter keys are omitted on write (model of the
`cleaned_frontmatter` filter in `write_md_file`). -/
def cleanFm (fm : List (String × JValue)) : List (String × JValue) :=
  fm.filter (fun p => !p.2.isNull)

/-- Content written by `write_md_file`: `---\n`, serialized frontmatter (with
null values filtered out), `---\n`, a blank line, then the body. -/
def write_md_content (fm : List (String × JValue)) (body : List Char) : List Char :=
  '-' :: '-' :: '-' :: '\n' ::
    (yaml_ser (cleanFm fm) ++ ('-' :: '-' :: '-' :: '\n' :: '\n' :: body))

/-- Content interpretation of `parse_md_file`: if the content starts with a
`---` line and contains a closing delimiter, the part between is parsed as
frontmatter (an unparsable block degrades to the empty map) and the rest is
the trimmed body; otherwise the whole content is the trimmed body. -/
def parse_md_content (content : List Char) : MdData :=
  match content with
  | '-' :: '-' :: '-' :: '\n' :: t =>
    match splitD t with
    | some (y, b) => ⟨yaml_parse y, trimChars b⟩
    | none => ⟨[], trimChars content⟩
  | _ => ⟨[], trimChars content⟩

/-- Writing a Markdown record and parsing it back yields the null-cleaned
frontmatter and the trimmed body. -/
theorem parse_write_md (fm : List (String × JValue)) (body : List Char) :
    parse_md_content (write_md_content fm body) = ⟨cleanFm fm, trimChars body⟩ := by
  have hT : yaml_ser (cleanFm fm) ++ ('-' :: '-' :: '-' :: '\n' :: '\n' :: body)
      = yaml_ser_core (cleanFm fm) ++ '\n' :: '-' :: '-' :: '-' :: '\n' :: ('\n' :: body) := by
    simp [yaml_ser]
  rw [write_md_content]
  simp only [parse_md_content, hT,
    splitD_delim _ _ (noNlDash_yaml_core (cleanFm fm)), yaml_parse_ser_core, trimChars_nl]

/-! ## Paths and the abstract file store -/

/-- A filesystem path as a list of components. -/
abbrev Path := List String

/-- File contents: a JSON layer file holds its parsed tree (text-level JSON
parsing and comment stripping are external pre-processing per the spec);
Markdown and prompt files hold raw characters. -/
inductive FileC where
  | jsonF : JValue → FileC
  | textF : List Char → FileC
  deriving DecidableEq

/-- The abstract file store. -/
structure World where
  files : List (Path × FileC)
  deriving DecidableEq

def existsF (w : World) (p : Path) : Bool := (alookup w.files p).isSome

def setFile (w : World) (p : Path) (fc : FileC) : World := ⟨aset w.files p fc⟩

def removeFile (w : World) (p : Path) : World := ⟨aerase w.files p⟩

/-- Raw character content of a file (the value wire format doubles as the
rendering of a JSON tree; no verified operation depends on that rendering). -/
def fileText : FileC → List Char
  | .jsonF v => jenc v
  | .textF c => c

def fileTextAt (w : World) (p : Path) : List Char :=
  match alookup w.files p with
  | some fc => fileText fc
  | none => []

/-- Error kinds surfaced by the operations (model of the `anyhow` errors). -/
inductive CfgError where
  | alreadyExists : CfgError
  | parseError : CfgError
  | invalidRef : CfgError
  | notFound : CfgError
  | invalidName : CfgError
  deriving DecidableEq

/-- The user configuration directory (`~/.config/opencode`); the home
directory is process environment state, modelled as a fixed root. -/
def config_dir : Path := ["home", ".config", "opencode"]

def get_config_file : Path := config_dir ++ [("opencode.json")]

def get_project_config_file (wd : Path) : Path := wd ++ [("opencode.json")]

/-- Entity kind parameters: agents and commands differ only in JSON section
key, body field name and Markdown directory name. -/
structure EntityKind where
  sectionKey : String
  bodyField : String
  dirName : String
  deriving DecidableEq

def agentKind : EntityKind := ⟨("agent"), ("prompt"), ("agent")⟩

def commandKind : EntityKind := ⟨("command"), ("template"), ("command")⟩

inductive Scope where
  | user : Scope
  | project : Scope
  deriving DecidableEq

def get_user_entity_path (k : EntityKind) (name : String) : Path :=
  config_dir ++ [k.dirName, name ++ (".md")]

def get_project_entity_path (wd : Path) (k : EntityKind) (name : String) : Path :=
  wd ++ [(".opencode"), k.dirName, name ++ (".md")]

/-- Model of `get_agent_scope` / `get_command_scope`: the project-level
Markdown location is consulted first (only when a working directory is
supplied), then the user-level location. -/
def get_entity_scope (k : EntityKind) (name : String) (wd : Option Path) (w : World) :
    Option Scope × Option Path :=
  match wd with
  | some d =>
    let pp := get_project_entity_path d k name
    if existsF w pp then (some Scope.project, some pp)
    else
      let up := get_user_entity_path k name
      if existsF w up then (some Scope.user, some up) else (none, none)
  | none =>
    let up := get_user_entity_path k name
    if existsF w up then (some Scope.user, some up) else (none, none)

def get_agent_scope : String → Option Path → World → Option Scope × Option Path :=
  get_entity_scope agentKind

def get_command_scope : String → Option Path → World → Option Scope × Option Path :=
  get_entity_scope commandKind

/-- Model of `get_agent_write_path` / `get_command_write_path`. -/
def get_entity_write_path (k : EntityKind) (name : String) (wd : Option Path)
    (requestedScope : Option Scope) (w : World) : Scope × Path :=
  match get_entity_scope k name wd w with
  | (some sc, some p) => (sc, p)
  | _ =>
    if requestedScope.getD .user = Scope.project then
      match wd with
      | some d => (.project, get_project_entity_path d k name)
      | none => (.user, get_user_entity_path k name)
    else (.user, get_user_entity_path k name)

/-! ## Configuration layers -/

structure ConfigPaths where
  user : Path
  project : Option Path
  custom : Option Path
  deriving DecidableEq

structure ConfigLayers where
  user : JValue
  project : JValue
  custom : JValue
  merged : JValue
  paths : ConfigPaths
  deriving DecidableEq

/-- The custom (override) layer path comes from the `OPENCODE_CONFIG`
environment variable; it is injected as an explicit argument. -/
def get_config_paths (wd : Option Path) (customPath : Option Path) : ConfigPaths :=
  ⟨get_config_file, wd.map get_project_config_file, customPath⟩

/-- Model of `read_config_file`: an absent file parses as the empty object;
a file that is not a JSON layer is a parse error. -/
def read_config_file (w : World) (p : Path) : Option JValue :=
  match alookup w.files p with
  | none => some (.obj [])
  | some (.jsonF v) => some v
  | some (.textF _) => none

/-- Read an optional layer: a layer with no configured path is the empty
object. -/
def read_layer_opt (w : World) : Option Path → Option JValue
  | some p => read_config_file w p
  | none => some (JValue.obj [])

def read_config_layers (wd : Option Path) (customPath : Option Path) (w : World) :
    Option ConfigLayers := do
  let paths := get_config_paths wd customPath
  let user ← read_config_file w paths.user
  let project ← read_layer_opt w paths.project
  let custom ← read_layer_opt w paths.custom
  some ⟨user, project, custom, merge_values (merge_values user project) custom, paths⟩

/-- Result of `get_json_entry_source` (source field names: `exists`, `path`,
`section`). -/
structure JsonEntrySource where
  present : Bool
  path : Option Path
  value : Option JValue
  deriving DecidableEq

/-- `tree.get(section_key).and_then(as_object)` then `.get(name)`. -/
def layer_entry (tree : JValue) (sectionKey name : String) : Option JValue :=
  match jget tree sectionKey with
  | some sec =>
    match sec.asObj with
    | some o => alookup o name
    | none => none
  | none => none

/-- Model of `get_json_entry_source`: scan custom (override), then project,
then user; a configured layer is consulted only when its path is present. -/
def get_json_entry_source (layers : ConfigLayers) (sectionKey name : String) : JsonEntrySource :=
  match layers.paths.custom, layer_entry layers.custom sectionKey name with
  | some customPath, some v => ⟨true, some customPath, some v⟩
  | _, _ =>
    match layers.paths.project, layer_entry layers.project sectionKey name with
    | some projectPath, some v => ⟨true, some projectPath, some v⟩
    | _, _ =>
      match layer_entry layers.user sectionKey name with
      | some v => ⟨true, some layers.paths.user, some v⟩
      | none => ⟨false, none, none⟩

/-- Model of `get_json_write_target`. -/
def get_json_write_target (layers : ConfigLayers) (preferredScope : Option Scope) : Path :=
  match layers.paths.custom with
  | some customPath => customPath
  | none =>
    match preferredScope, layers.paths.project with
    | some .project, some projectPath => projectPath
    | _, _ =>
      match layers.paths.project with
      | some projectPath => projectPath
      | none => layers.paths.user

/-- Which of the three independently owned layer trees a target path selects
(model of `get_config_for_path`, following the spec's design note on
in-place nested mutation). -/
inductive LayerSel where
  | custom : LayerSel
  | project : LayerSel
  | user : LayerSel
  deriving DecidableEq

def get_config_for_path (layers : ConfigLayers) (target : Path) : LayerSel :=
  if layers.paths.custom = some target then .custom
  else if layers.paths.project = some target then .project
  else .user

def layer_tree (layers : ConfigLayers) : LayerSel → JValue
  | .custom => layers.custom
  | .project => layers.project
  | .user => layers.user

/-! ## Persistence writers -/

/-- Backup sibling of a config file: same directory, filename with the fixed
backup suffix appended. -/
def backup_path (p : Path) : Option Path :=
  match p.getLast? with
  | none => none
  | some fname => some (p.dropLast ++ [fname ++ (".openchamber.backup")])

/-- Model of `write_config_at`: copy an existing file to its backup sibling,
then overwrite the file with the serialized tree. -/
def write_config_at (cfg : JValue) (configFile : Path) (w : World) : World × Option CfgError :=
  if existsF w configFile then
    match backup_path configFile, alookup w.files configFile with
    | some bp, some fc =>
      (setFile (setFile w bp fc) configFile (.jsonF cfg), none)
    | _, _ => (w, some .invalidName)
  else (setFile w configFile (.jsonF cfg), none)

/-- Model of `write_md_file`: serialize and overwrite (the source performs no
backup here). -/
def write_md_file (filePath : Path) (fm : List (String × JValue)) (body : List Char)
    (w : World) : World :=
  setFile w filePath (.textF (write_md_content fm body))

def write_prompt_file (filePath : Path) (content : List Char) (w : World) : World :=
  setFile w filePath (.textF content)

def parse_md_file (w : World) (p : Path) : MdData := parse_md_content (fileTextAt w p)

/-! ## Prompt file references -/

/-- Capture of the `(?i)^\x7bfile:(.+)\x7d$` pattern applied to the trimmed
value: brace, the word file case-insensitively, a colon, at least one
character, and a closing brace last. -/
def prompt_ref_target (s : String) : Option String :=
  match trimChars s.data with
  | '{' :: c1 :: c2 :: c3 :: c4 :: ':' :: rest =>
    if c1.toLower = 'f' && c2.toLower = 'i' && c3.toLower = 'l' && c4.toLower = 'e' then
      match rest.getLast? with
      | some '}' =>
        match rest.dropLast with
        | [] => none
        | target => some ⟨target⟩
      | _ => none
    else none
  | _ => none

def is_prompt_file_reference (s : String) : Bool := (prompt_ref_target s).isSome

/-- Model of `resolve_prompt_file_path`: trim the captured target; an empty
target is an error; `./`-prefixed and bare relative targets are rooted at the
configuration directory, absolute targets are used as-is (an unstructured
target string is one opaque path component). -/
def resolve_prompt_file_path (reference : String) : Option Path :=
  match prompt_ref_target reference with
  | none => none
  | some target =>
    match trimChars target.data with
    | [] => none
    | '.' :: '/' :: rest => some (config_dir ++ [(⟨rest⟩ : String)])
    | '/' :: rest => some [(⟨'/' :: rest⟩ : String)]
    | t => some (config_dir ++ [(⟨t⟩ : String)])

/-! ## The field reconciler (`update_agent` / `update_command`)

The two source functions are line-for-line identical up to the entity kind
parameters (section key, body field, directory name), so they are embedded as
one kind-parametrized function. -/

/-- Loop state of the per-field reconciliation (the source's mutable locals
`md_data`, `existing_agent`/`existing_command`, `md_modified`,
`json_modified`, plus the file store touched by prompt-file writes). -/
structure UpdSt where
  w : World
  mdData : Option MdData
  jrec : List (String × JValue)
  mdMod : Bool
  jsonMod : Bool
  err : Option CfgError

/-- Null-payload branch of the loop: remove the field from the Markdown
frontmatter when the Markdown file exists, and independently from the JSON
record, marking the respective store dirty only when a removal happened. -/
def upd_null (mdExists : Bool) (field : String) (st : UpdSt) : UpdSt :=
  let st1 :=
    if mdExists then
      match st.mdData with
      | some data =>
        if (alookup data.frontmatter field).isSome then
          { st with mdData := some ⟨aerase data.frontmatter field, data.body⟩, mdMod := true }
        else st
      | none => st
    else st
  if (alookup st1.jrec field).isSome then
    { st1 with jrec := aerase st1.jrec field, jsonMod := true }
  else st1

/-- `value.as_str().unwrap_or("")`. -/
def normalizeStr (value : JValue) : List Char :=
  match value.asStr with
  | some s => s.data
  | none => []

/-- Body-field branch of the loop: set the Markdown body when a Markdown
record exists or is being materialized; else redirect through a prompt file
reference when the JSON record holds one (a malformed reference is an
error); else store the body inline in the JSON record. -/
def upd_body (k : EntityKind) (mdExists creatingNewMd : Bool) (value : JValue)
    (st : UpdSt) : UpdSt :=
  let normalized := normalizeStr value
  if mdExists || creatingNewMd then
    match st.mdData with
    | some data => { st with mdData := some ⟨data.frontmatter, normalized⟩, mdMod := true }
    | none => st
  else
    match (alookup st.jrec k.bodyField).bind JValue.asStr with
    | some refStr =>
      if is_prompt_file_reference refStr then
        match resolve_prompt_file_path refStr with
        | some promptPath => { st with w := write_prompt_file promptPath normalized st.w }
        | none => { st with err := some .invalidRef }
      else
        { st with jrec := aset st.jrec k.bodyField (.str ⟨normalized⟩), jsonMod := true }
    | none =>
      { st with jrec := aset st.jrec k.bodyField (.str ⟨normalized⟩), jsonMod := true }

/-- Ordinary-field branch of the loop: a field present in the JSON record is
updated there (JSON wins ties); else a field present in the frontmatter, or
any field of a newly materialized record, goes to the frontmatter; else a
brand-new field goes to the frontmatter when a Markdown record is active and
to the JSON record otherwise. -/
def upd_ordinary (mdExists creatingNewMd : Bool) (field : String) (value : JValue)
    (st : UpdSt) : UpdSt :=
  let inMd :=
    match st.mdData with
    | some data => (alookup data.frontmatter field).isSome
    | none => false
  let inJson := (alookup st.jrec field).isSome
  if inJson then { st with jrec := aset st.jrec field value, jsonMod := true }
  else if inMd || creatingNewMd then
    match st.mdData with
    | some data =>
      { st with mdData := some ⟨aset data.frontmatter field value, data.body⟩, mdMod := true }
    | none => st
  else
    if (mdExists || creatingNewMd) && st.mdData.isSome then
      match st.mdData with
      | some data =>
        { st with mdData := some ⟨aset data.frontmatter field value, data.body⟩, mdMod := true }
      | none => st
    else { st with jrec := aset st.jrec field value, jsonMod := true }

/-- One iteration of the `for (field, value) in updates` loop.  A prior error
aborts the remainder (the source returns immediately). -/
def upd_step (k : EntityKind) (mdExists creatingNewMd : Bool)
    (fv : String × JValue) (st : UpdSt) : UpdSt :=
  if st.err.isSome then st
  else if fv.2.isNull then upd_null mdExists fv.1 st
  else if fv.1 = k.bodyField then upd_body k mdExists creatingNewMd fv.2 st
  else upd_ordinary mdExists creatingNewMd fv.1 fv.2 st

/-- Insertion of the updated entity object into a layer tree, mirroring the
write-back block: a non-object tree is replaced by an empty object, the
section entry is created or replaced by an object, and the entity entry is
inserted without disturbing sibling entries. -/
def insert_entity_tree (tree : JValue) (sectionKey name : String)
    (recObj : List (String × JValue)) : JValue :=
  let t :=
    match tree.asObj with
    | some o => o
    | none => []
  let secEntry := (alookup t sectionKey).getD (.obj [])
  let secObj :=
    match secEntry.asObj with
    | some o => o
    | none => []
  .obj (aset t sectionKey (.obj (aset secObj name (.obj recObj))))

/-- The JSON layer file an update writes to: the layer holding the existing
entry when one was found, the preferred write target otherwise. -/
def json_target_path (k : EntityKind) (name : String) (wd : Option Path)
    (layers : ConfigLayers) : Path :=
  let jsonSource := get_json_entry_source layers k.sectionKey name
  let preferredScope : Option Scope := if wd.isSome then some .project else some .user
  match jsonSource.present, jsonSource.path with
  | true, some p => p
  | _, _ => get_json_write_target layers preferredScope

/-- Model of `update_agent` / `update_command`. -/
def update_entity (k : EntityKind) (name : String) (updates : List (String × JValue))
    (wd : Option Path) (customPath : Option Path) (w : World) : World × Option CfgError :=
  let mdPath := (get_entity_write_path k name wd none w).2
  let mdExists := existsF w mdPath
  match read_config_layers wd customPath w with
  | none => (w, some .parseError)
  | some layers =>
    let jsonSource := get_json_entry_source layers k.sectionKey name
    let existingRec :=
      match jsonSource.value.bind JValue.asObj with
      | some o => o
      | none => []
    let hadJsonFields := !existingRec.isEmpty
    let jsonTargetPath := json_target_path k name wd layers
    let sel := get_config_for_path layers jsonTargetPath
    let isBuiltinOverride := !mdExists && !hadJsonFields
    let targetPath :=
      if !mdExists && isBuiltinOverride then get_user_entity_path k name else mdPath
    let mdData0 : Option MdData :=
      if mdExists then some (parse_md_file w mdPath)
      else if isBuiltinOverride then some ⟨[], []⟩
      else none
    let creatingNewMd := isBuiltinOverride
    let st0 : UpdSt := ⟨w, mdData0, existingRec, false, false, none⟩
    let st := updates.foldl (fun s fv => upd_step k mdExists creatingNewMd fv s) st0
    match st.err with
    | some e => (st.w, some e)
    | none =>
      let w1 :=
        if st.mdMod then
          match st.mdData with
          | some data => write_md_file targetPath data.frontmatter data.body st.w
          | none => st.w
        else st.w
      let jsonModFinal := st.jsonMod && !(mdExists && !hadJsonFields)
      if jsonModFinal then
        write_config_at (insert_entity_tree (layer_tree layers sel) k.sectionKey name st.jrec)
          jsonTargetPath w1
      else (w1, none)

def update_agent (name : String) (updates : List (String × JValue)) (wd : Option Path)
    (customPath : Option Path) (w : World) : World × Option CfgError :=
  update_entity agentKind name updates wd customPath w

def update_command (name : String) (updates : List (String × JValue)) (wd : Option Path)
    (customPath : Option Path) (w : World) : World × Option CfgError :=
  update_entity commandKind name updates wd customPath w

/-- Model of `create_agent` / `create_command`: creation fails if the name has
a Markdown file at either scope or a JSON entry in any layer; otherwise a new
Markdown file is written (Project scope honored only with a working
directory), with the body field and the pseudo-field scope stripped from the
frontmatter. -/
def create_entity (k : EntityKind) (name : String) (cfg : List (String × JValue))
    (wd : Option Path) (requestedScope : Option Scope) (customPath : Option Path)
    (w : World) : World × Option CfgError :=
  let projClash :=
    match wd with
    | some d => existsF w (get_project_entity_path d k name)
    | none => false
  if projClash then (w, some .alreadyExists)
  else if existsF w (get_user_entity_path k name) then (w, some .alreadyExists)
  else
    match read_config_layers wd customPath w with
    | none => (w, some .parseError)
    | some layers =>
      if (get_json_entry_source layers k.sectionKey name).present then
        (w, some .alreadyExists)
      else
        let targetPath :=
          match requestedScope, wd with
          | some .project, some d => get_project_entity_path d k name
          | _, _ => get_user_entity_path k name
        let body : List Char :=
          match (alookup cfg k.bodyField).bind JValue.asStr with
          | some s => s.data
          | none => []
        let fm := aerase (aerase cfg k.bodyField) ("scope")
        (write_md_file targetPath fm body w, none)

def create_agent (name : String) (cfg : List (String × JValue)) (wd : Option Path)
    (requestedScope : Option Scope) (customPath : Option Path) (w : World) :
    World × Option CfgError :=
  create_entity agentKind name cfg wd requestedScope customPath w

def create_command (name : String) (cfg : List (String × JValue)) (wd : Option Path)
    (requestedScope : Option Scope) (customPath : Option Path) (w : World) :
    World × Option CfgError :=
  create_entity commandKind name cfg wd requestedScope customPath w

/-! ## Deletion -/

/-- Intermediate state of deletion shared by agents and commands. -/
structure DelSt where
  w : World
  deleted : Bool
  layers : Option ConfigLayers
  err : Option CfgError

/-- Common part of `delete_agent` / `delete_command`: remove the project-scope
Markdown file (when a working directory is known), then the user-scope one,
then the highest-precedence JSON entry. -/
def delete_entity_core (k : EntityKind) (name : String) (wd : Option Path)
    (customPath : Option Path) (w : World) : DelSt :=
  let step1 :=
    match wd with
    | some d =>
      let pp := get_project_entity_path d k name
      if existsF w pp then (removeFile w pp, true) else (w, false)
    | none => (w, false)
  let up := get_user_entity_path k name
  let step2 :=
    if existsF step1.1 up then (removeFile step1.1 up, true) else (step1.1, step1.2)
  let w1 := step2.1
  let d1 := step2.2
  match read_config_layers wd customPath w1 with
  | none => ⟨w1, d1, none, some .parseError⟩
  | some layers =>
    let jsonSource := get_json_entry_source layers k.sectionKey name
    match jsonSource.present, jsonSource.path with
    | true, some jsonPath =>
      let tree := layer_tree layers (get_config_for_path layers jsonPath)
      match (jget tree k.sectionKey).bind JValue.asObj with
      | some secObj =>
        if (alookup secObj name).isSome then
          let tree2 :=
            match tree.asObj with
            | some t => JValue.obj (aset t k.sectionKey (.obj (aerase secObj name)))
            | none => tree
          match write_config_at tree2 jsonPath w1 with
          | (w2, some e) => ⟨w2, d1, some layers, some e⟩
          | (w2, none) => ⟨w2, true, some layers, none⟩
        else ⟨w1, d1, some layers, none⟩
      | none => ⟨w1, d1, some layers, none⟩
    | _, _ => ⟨w1, d1, some layers, none⟩

/-- Model of `delete_agent`: when nothing was deleted anywhere, degrade to
writing a disabling marker into the highest-precedence available layer. -/
def delete_agent (name : String) (wd : Option Path) (customPath : Option Path)
    (w : World) : World × Option CfgError :=
  let st := delete_entity_core agentKind name wd customPath w
  match st.err with
  | some e => (st.w, some e)
  | none =>
    if st.deleted then (st.w, none)
    else
      match st.layers with
      | none => (st.w, some .parseError)
      | some layers =>
        let preferredScope : Option Scope := if wd.isSome then some .project else some .user
        let jsonPath := get_json_write_target layers preferredScope
        let tree := layer_tree layers (get_config_for_path layers jsonPath)
        write_config_at
          (insert_entity_tree tree agentKind.sectionKey name [(("disable"), JValue.bool true)])
          jsonPath st.w

/-- Model of `delete_command`: the not-found case is a hard failure. -/
def delete_command (name : String) (wd : Option Path) (customPath : Option Path)
    (w : World) : World × Option CfgError :=
  let st := delete_entity_core commandKind name wd customPath w
  match st.err with
  | some e => (st.w, some e)
  | none => if st.deleted then (st.w, none) else (st.w, some .notFound)

/-! ## Helper lemmas about the reconciliation step -/

/-- Frontmatter value of a field in the loop state. -/
def mdFmOf (st : UpdSt) (f : String) : Option JValue :=
  match st.mdData with
  | some d => alookup d.frontmatter f
  | none => none

/-- Body of the loop state's Markdown record. -/
def mdBodyOf (st : UpdSt) : Option (List Char) :=
  match st.mdData with
  | some d => some d.body
  | none => none

theorem upd_step_err (k : EntityKind) (mdE cr : Bool) (fv : String × JValue) (st : UpdSt)
    (h : st.err.isSome = true) : upd_step k mdE cr fv st = st := by
  simp [upd_step, h]

theorem foldl_upd_err (k : EntityKind) (mdE cr : Bool) (l : List (String × JValue)) (st : UpdSt)
    (h : st.err.isSome = true) :
    l.foldl (fun s fv => upd_step k mdE cr fv s) st = st := by
  induction l with
  | nil => rfl
  | cons p r ih => simp [upd_step_err k mdE cr p st h, ih]

theorem foldl_upd_err_none (k : EntityKind) (mdE cr : Bool) (l : List (String × JValue))
    (st : UpdSt) (h : (l.foldl (fun s fv => upd_step k mdE cr fv s) st).err = none) :
    st.err = none := by
  by_cases hs : st.err.isSome = true
  · rw [foldl_upd_err k mdE cr l st hs] at h
    rw [h] at hs
    exact absurd hs (by simp)
  · cases he : st.err with
    | none => rfl
    | some e => rw [he] at hs; simp at hs

theorem upd_null_frame (mdE : Bool) (field : String) (st : UpdSt) (f : String)
    (hne : field ≠ f) :
    alookup (upd_null mdE field st).jrec f = alookup st.jrec f
    ∧ mdFmOf (upd_null mdE field st) f = mdFmOf st f
    ∧ mdBodyOf (upd_null mdE field st) = mdBodyOf st
    ∧ (upd_null mdE field st).err = st.err
    ∧ (upd_null mdE field st).w = st.w
    ∧ (st.jsonMod = true → (upd_null mdE field st).jsonMod = true)
    ∧ (st.mdData = none →
        (upd_null mdE field st).mdData = none ∧ (upd_null mdE field st).mdMod = st.mdMod) := by
  unfold upd_null
  cases hmdd : st.mdData with
  | none =>
    cases mdE <;>
      by_cases hj : (alookup st.jrec field).isSome = true <;>
        simp_all [mdFmOf, mdBodyOf, alookup_aerase_ne st.jrec field f hne]
  | some data =>
    by_cases hfm : (alookup data.frontmatter field).isSome = true <;>
      cases mdE <;>
        by_cases hj : (alookup st.jrec field).isSome = true <;>
          simp_all [mdFmOf, mdBodyOf, alookup_aerase_ne st.jrec field f hne,
            alookup_aerase_ne data.frontmatter field f hne]

theorem upd_body_frame (k : EntityKind) (mdE cr : Bool) (value : JValue) (st : UpdSt)
    (f : String) (hf : f ≠ k.bodyField) :
    alookup (upd_body k mdE cr value st).jrec f = alookup st.jrec f
    ∧ mdFmOf (upd_body k mdE cr value st) f = mdFmOf st f
    ∧ (st.jsonMod = true → (upd_body k mdE cr value st).jsonMod = true)
    ∧ (st.mdData = none →
        (upd_body k mdE cr value st).mdData = none
          ∧ (upd_body k mdE cr value st).mdMod = st.mdMod) := by
  have hbf : k.bodyField ≠ f := fun h => hf h.symm
  unfold upd_body
  by_cases hmc : (mdE || cr) = true
  · cases hmdd : st.mdData with
    | none => simp_all [mdFmOf]
    | some data => simp_all [mdFmOf]
  · cases hrf : (alookup st.jrec k.bodyField).bind JValue.asStr with
    | none => simp_all [mdFmOf, alookup_aset_ne st.jrec k.bodyField f _ hbf]
    | some refStr =>
      by_cases hir : is_prompt_file_reference refStr = true
      · cases hrp : resolve_prompt_file_path refStr with
        | none => simp_all [mdFmOf]
        | some promptPath => simp_all [mdFmOf]
      · simp_all [mdFmOf, alookup_aset_ne st.jrec k.bodyField f _ hbf]

theorem upd_ordinary_frame (mdE cr : Bool) (field : String) (value : JValue) (st : UpdSt)
    (f : String) (hne : field ≠ f) :
    alookup (upd_ordinary mdE cr field value st).jrec f = alookup st.jrec f
    ∧ mdFmOf (upd_ordinary mdE cr field value st) f = mdFmOf st f
    ∧ mdBodyOf (upd_ordinary mdE cr field value st) = mdBodyOf st
    ∧ (upd_ordinary mdE cr field value st).err = st.err
    ∧ (upd_ordinary mdE cr field value st).w = st.w
    ∧ (st.jsonMod = true → (upd_ordinary mdE cr field value st).jsonMod = true)
    ∧ (st.mdData = none →
        (upd_ordinary mdE cr field value st).mdData = none
          ∧ (upd_ordinary mdE cr field value st).mdMod = st.mdMod) := by
  unfold upd_ordinary
  cases hmdd : st.mdData with
  | none =>
    by_cases hj : (alookup st.jrec field).isSome = true <;>
      cases cr <;>
        simp_all [mdFmOf, mdBodyOf, alookup_aset_ne st.jrec field f _ hne]
  | some data =>
    by_cases hj : (alookup st.jrec field).isSome = true <;>
      by_cases hfm : (alookup data.frontmatter field).isSome = true <;>
        cases cr <;> cases mdE <;>
          simp_all [mdFmOf, mdBodyOf, alookup_aset_ne st.jrec field f _ hne,
            alookup_aset_ne data.frontmatter field f _ hne]

/-- Full frame property of one loop step for a field key different from the
processed one and from the body field. -/
theorem upd_step_frame (k : EntityKind) (mdE cr : Bool) (fv : String × JValue) (st : UpdSt)
    (f : String) (hf : f ≠ k.bodyField) (hne : fv.1 ≠ f) :
    alookup (upd_step k mdE cr fv st).jrec f = alookup st.jrec f
    ∧ mdFmOf (upd_step k mdE cr fv st) f = mdFmOf st f
    ∧ (st.jsonMod = true → (upd_step k mdE cr fv st).jsonMod = true)
    ∧ (st.mdData = none →
        (upd_step k mdE cr fv st).mdData = none
          ∧ (upd_step k mdE cr fv st).mdMod = st.mdMod) := by
  rw [upd_step]
  by_cases herr : st.err.isSome = true
  · simp [herr]
  · simp only [herr, Bool.false_eq_true, if_false]
    by_cases hnull : fv.2.isNull = true
    · have hn := upd_null_frame mdE fv.1 st f hne
      simp only [hnull, if_true]
      exact ⟨hn.1, hn.2.1, hn.2.2.2.2.2.1, hn.2.2.2.2.2.2⟩
    · by_cases hbf : fv.1 = k.bodyField
      · have hb := upd_body_frame k mdE cr fv.2 st f hf
        simp only [hnull, hbf, if_false, if_true]
        exact hb
      · have ho := upd_ordinary_frame mdE cr fv.1 fv.2 st f hne
        simp only [hnull, hbf, if_false]
        exact ⟨ho.1, ho.2.1, ho.2.2.2.2.2.1, ho.2.2.2.2.2.2⟩

theorem upd_null_w (mdE : Bool) (field : String) (st : UpdSt) :
    (upd_null mdE field st).w = st.w ∧ (upd_null mdE field st).err = st.err := by
  unfold upd_null
  cases hmdd : st.mdData with
  | none =>
    cases mdE <;> by_cases hj : (alookup st.jrec field).isSome = true <;> simp_all
  | some data =>
    by_cases hfm : (alookup data.frontmatter field).isSome = true <;>
      cases mdE <;> by_cases hj : (alookup st.jrec field).isSome = true <;> simp_all

theorem upd_ordinary_w (mdE cr : Bool) (field : String) (value : JValue) (st : UpdSt) :
    (upd_ordinary mdE cr field value st).w = st.w
      ∧ (upd_ordinary mdE cr field value st).err = st.err := by
  unfold upd_ordinary
  cases hmdd : st.mdData with
  | none =>
    by_cases hj : (alookup st.jrec field).isSome = true <;> cases cr <;> simp_all
  | some data =>
    by_cases hj : (alookup st.jrec field).isSome = true <;>
      by_cases hfm : (alookup data.frontmatter field).isSome = true <;>
        cases cr <;> cases mdE <;> simp_all

theorem upd_step_w_mdE (k : EntityKind) (cr : Bool) (fv : String × JValue) (st : UpdSt) :
    (upd_step k true cr fv st).w = st.w := by
  rw [upd_step]
  by_cases herr : st.err.isSome = true
  · simp [herr]
  · simp only [herr, Bool.false_eq_true, if_false]
    by_cases hnull : fv.2.isNull = true
    · simp only [hnull, if_true]
      exact (upd_null_w true fv.1 st).1
    · by_cases hbf : fv.1 = k.bodyField
      · simp only [hnull, hbf, if_false, if_true]
        rw [upd_body]
        cases hmdd : st.mdData with
        | none => simp
        | some data => simp
      · simp only [hnull, hbf, if_false]
        exact (upd_ordinary_w true cr fv.1 fv.2 st).1

theorem upd_fold_w_mdE (k : EntityKind) (cr : Bool) (l : List (String × JValue)) :
    ∀ st : UpdSt, (l.foldl (fun s fv => upd_step k true cr fv s) st).w = st.w := by
  induction l with
  | nil => intro st; rfl
  | cons p r ih =>
    intro st
    rw [List.foldl_cons, ih, upd_step_w_mdE]

/-- A step with a key different from the processed body field preserves the
Markdown body and the JSON record's body-field entry. -/
theorem upd_step_body_frame (k : EntityKind) (mdE cr : Bool) (fv : String × JValue)
    (st : UpdSt) (hne : fv.1 ≠ k.bodyField) :
    mdBodyOf (upd_step k mdE cr fv st) = mdBodyOf st
    ∧ alookup (upd_step k mdE cr fv st).jrec k.bodyField = alookup st.jrec k.bodyField := by
  have hne2 : fv.1 ≠ k.bodyField := hne
  rw [upd_step]
  by_cases herr : st.err.isSome = true
  · simp [herr]
  · simp only [herr, Bool.false_eq_true, if_false]
    by_cases hnull : fv.2.isNull = true
    · simp only [hnull, if_true]
      have hn := upd_null_frame mdE fv.1 st k.bodyField hne2
      exact ⟨hn.2.2.1, hn.1⟩
    · simp only [hnull, hne, if_false]
      have ho := upd_ordinary_frame mdE cr fv.1 fv.2 st k.bodyField hne2
      exact ⟨ho.2.2.1, ho.1⟩

/-- Folding over keys all different from `f` (itself not the body field)
preserves the JSON-record entry and frontmatter entry at `f`. -/
theorem upd_fold_frame (k : EntityKind) (mdE cr : Bool) (f : String) (hf : f ≠ k.bodyField)
    (l : List (String × JValue)) :
    ∀ st : UpdSt, (∀ p ∈ l, p.1 ≠ f) →
      alookup (l.foldl (fun s fv => upd_step k mdE cr fv s) st).jrec f = alookup st.jrec f
      ∧ mdFmOf (l.foldl (fun s fv => upd_step k mdE cr fv s) st) f = mdFmOf st f := by
  induction l with
  | nil => intro st _; exact ⟨rfl, rfl⟩
  | cons p r ih =>
    intro st hall
    have hstep := upd_step_frame k mdE cr p st f hf (hall p (by simp))
    have hrest := ih (upd_step k mdE cr p st) (fun q hq => hall q (by simp [hq]))
    rw [List.foldl_cons]
    exact ⟨hrest.1.trans hstep.1, hrest.2.trans hstep.2.1⟩

theorem upd_step_json_hit (k : EntityKind) (mdE cr : Bool) (f : String) (v : JValue)
    (st : UpdSt) (hv : v.isNull = false) (hf : f ≠ k.bodyField)
    (hj : (alookup st.jrec f).isSome = true) (he : st.err.isSome = false) :
    upd_step k mdE cr (f, v) st = { st with jrec := aset st.jrec f v, jsonMod := true } := by
  rw [upd_step]
  simp only [he, Bool.false_eq_true, if_false, hv, hf, if_false]
  rw [upd_ordinary]
  simp [hj]

/-- After the JSON-hit step, the remainder of the fold (whose `f`-keyed
entries all carry the same value) keeps the updated entry, the dirty flag and
the frontmatter entry at `f`. -/
theorem upd_fold_json_keep (k : EntityKind) (mdE cr : Bool) (f : String) (v : JValue)
    (hv : v.isNull = false) (hf : f ≠ k.bodyField) (l : List (String × JValue)) :
    ∀ st : UpdSt, (∀ p ∈ l, p.1 = f → p.2 = v) →
      alookup st.jrec f = some v → st.jsonMod = true →
      (l.foldl (fun s fv => upd_step k mdE cr fv s) st).err = none →
        alookup (l.foldl (fun s fv => upd_step k mdE cr fv s) st).jrec f = some v
        ∧ (l.foldl (fun s fv => upd_step k mdE cr fv s) st).jsonMod = true
        ∧ mdFmOf (l.foldl (fun s fv => upd_step k mdE cr fv s) st) f = mdFmOf st f := by
  induction l with
  | nil => intro st _ h1 h2 _; exact ⟨h1, h2, rfl⟩
  | cons p r ih =>
    intro st hall hjv hjm herrfin
    rw [List.foldl_cons] at herrfin ⊢
    by_cases hp : p.1 = f
    · have hpv : p.2 = v := hall p (by simp) hp
      have hpe : p = (f, v) := by
        cases p
        simp_all
      subst hpe
      by_cases herr : st.err.isSome = true
      · rw [upd_step_err k mdE cr _ st herr] at herrfin ⊢
        rw [foldl_upd_err k mdE cr r st herr] at herrfin
        rw [herrfin] at herr
        exact absurd herr (by simp)
      · have hstep := upd_step_json_hit k mdE cr f v st hv hf
          (by rw [hjv]; rfl) (by simpa using herr)
        rw [hstep] at herrfin ⊢
        have := ih { st with jrec := aset st.jrec f v, jsonMod := true }
          (fun q hq hq2 => hall q (by simp [hq]) hq2)
          (by simp [alookup_aset_self]) rfl herrfin
        exact ⟨this.1, this.2.1, this.2.2.trans (by rw [mdFmOf, mdFmOf])⟩
    · have hstep := upd_step_frame k mdE cr p st f hf hp
      have := ih (upd_step k mdE cr p st)
        (fun q hq hq2 => hall q (by simp [hq]) hq2)
        (hstep.1.trans hjv) (hstep.2.2.1 hjm) herrfin
      exact ⟨this.1, this.2.1, this.2.2.trans hstep.2.1⟩

/-- A field with a non-null value, distinct from the body field, present in
the JSON record: after the whole error-free fold the record holds the new
value, the JSON store is dirty, and the frontmatter entry is untouched. -/
theorem upd_fold_json_hit (k : EntityKind) (mdE cr : Bool) (f : String) (v : JValue)
    (hv : v.isNull = false) (hf : f ≠ k.bodyField) (l : List (String × JValue)) :
    ∀ st : UpdSt, (f, v) ∈ l → (∀ p ∈ l, p.1 = f → p.2 = v) →
      (alookup st.jrec f).isSome = true →
      (l.foldl (fun s fv => upd_step k mdE cr fv s) st).err = none →
        alookup (l.foldl (fun s fv => upd_step k mdE cr fv s) st).jrec f = some v
        ∧ (l.foldl (fun s fv => upd_step k mdE cr fv s) st).jsonMod = true
        ∧ mdFmOf (l.foldl (fun s fv => upd_step k mdE cr fv s) st) f = mdFmOf st f := by
  induction l with
  | nil => intro st hmem; simp at hmem
  | cons p r ih =>
    intro st hmem hall hj herrfin
    rw [List.foldl_cons] at herrfin ⊢
    by_cases hp : p.1 = f
    · have hpv : p.2 = v := hall p (by simp) hp
      have hpe : p = (f, v) := by
        cases p
        simp_all
      subst hpe
      by_cases herr : st.err.isSome = true
      · rw [upd_step_err k mdE cr _ st herr] at herrfin ⊢
        rw [foldl_upd_err k mdE cr r st herr] at herrfin
        rw [herrfin] at herr
        exact absurd herr (by simp)
      · have hstep := upd_step_json_hit k mdE cr f v st hv hf hj (by simpa using herr)
        rw [hstep] at herrfin ⊢
        have := upd_fold_json_keep k mdE cr f v hv hf r
          { st with jrec := aset st.jrec f v, jsonMod := true }
          (fun q hq hq2 => hall q (by simp [hq]) hq2)
          (by simp [alookup_aset_self]) rfl herrfin
        exact ⟨this.1, this.2.1, this.2.2.trans (by rw [mdFmOf, mdFmOf])⟩
    · have hmem2 : (f, v) ∈ r := by
        cases hmem with
        | head => exact absurd rfl hp
        | tail _ h => exact h
      have hstep := upd_step_frame k mdE cr p st f hf hp
      have := ih (upd_step k mdE cr p st) hmem2
        (fun q hq hq2 => hall q (by simp [hq]) hq2)
        (by rw [hstep.1]; exact hj) herrfin
      exact ⟨this.1, this.2.1, this.2.2.trans hstep.2.1⟩

/-! ## Observers and scope helpers used by the update claims -/

/-- Frontmatter entry of the Markdown file at a path (empty map if no file
or no frontmatter). -/
def mdFmAt (w : World) (p : Path) (f : String) : Option JValue :=
  alookup (parse_md_file w p).frontmatter f

/-- Body of the Markdown file at a path. -/
def mdBodyAt (w : World) (p : Path) : List Char := (parse_md_file w p).body

/-- The JSON entry stored on disk: the named entry of the section object of
the JSON layer file at a path. -/
def jsonEntryAt (w : World) (p : Path) (sectionKey name : String) : Option JValue :=
  match alookup w.files p with
  | some (.jsonF t) => layer_entry t sectionKey name
  | _ => none

theorem scope_none_user_absent (k : EntityKind) (name : String) (wd : Option Path) (w : World)
    (h : get_entity_scope k name wd w = (none, none)) :
    existsF w (get_user_entity_path k name) = false := by
  cases wd with
  | none =>
    by_cases hu : existsF w (get_user_entity_path k name) = true
    · rw [get_entity_scope] at h
      simp [hu] at h
    · simpa using hu
  | some d =>
    by_cases hp : existsF w (get_project_entity_path d k name) = true
    · rw [get_entity_scope] at h
      simp [hp] at h
    · by_cases hu : existsF w (get_user_entity_path k name) = true
      · rw [get_entity_scope] at h
        simp only [Bool.not_eq_true] at hp
        simp [hp, hu] at h
      · simpa using hu

theorem write_path_scope_none (k : EntityKind) (name : String) (wd : Option Path) (w : World)
    (h : get_entity_scope k name wd w = (none, none)) :
    get_entity_write_path k name wd none w = (.user, get_user_entity_path k name) := by
  rw [get_entity_write_path.eq_def, h]
  simp

theorem mdFmAt_absent (w : World) (p : Path) (f : String)
    (h : existsF w p = false) : mdFmAt w p f = none := by
  rw [mdFmAt, parse_md_file, fileTextAt]
  rw [existsF] at h
  cases hl : alookup w.files p with
  | none => rfl
  | some fc => rw [hl] at h; simp at h

theorem mdFmAt_present (w : World) (p : Path) (f : String) (x : JValue)
    (h : mdFmAt w p f = some x) : existsF w p = true := by
  by_cases he : existsF w p = true
  · exact he
  · rw [mdFmAt_absent w p f (by simpa using he)] at h
    exact absurd h (by simp)

theorem alookup_cleanFm_of_ne_null (fm : List (String × JValue)) (f : String)
    (h : ∀ x, alookup fm f = some x → x.isNull = false) :
    alookup (cleanFm fm) f = alookup fm f := by
  induction fm with
  | nil => rfl
  | cons p r ih =>
    obtain ⟨key, x⟩ := p
    have hfilter : cleanFm ((key, x) :: r)
        = if x.isNull = true then cleanFm r else (key, x) :: cleanFm r := by
      by_cases hx : x.isNull = true
      · rw [if_pos hx, cleanFm, cleanFm, List.filter_cons_of_neg]
        simp [hx]
      · rw [if_neg hx, cleanFm, cleanFm, List.filter_cons_of_pos]
        simp only [Bool.not_eq_true] at hx
        simp [hx]
    by_cases hk : key = f
    · subst hk
      have hx : x.isNull = false := h x (by simp [alookup])
      rw [hfilter, hx]
      simp [alookup]
    · have hrest : ∀ y, alookup r f = some y → y.isNull = false := by
        intro y hy
        exact h y (by simp [alookup, hk, hy])
      rw [hfilter]
      by_cases hx : x.isNull = true
      · rw [if_pos hx, ih hrest]
        simp [alookup, hk]
      · rw [if_neg hx]
        simp [alookup, hk, ih hrest]

/-- The fold in the builtin-override configuration: Markdown starts empty,
the JSON record is empty and stays empty, non-null ordinary fields accumulate
in the frontmatter, a non-null body field sets the body, null fields are
dropped, and the store is dirty exactly when some value was non-null. -/
def builtinFmStep (k : EntityKind) (fm : List (String × JValue)) (fv : String × JValue) :
    List (String × JValue) :=
  if fv.2.isNull then fm else if fv.1 = k.bodyField then fm else aset fm fv.1 fv.2

def builtinBodyStep (k : EntityKind) (b : List Char) (fv : String × JValue) : List Char :=
  if fv.2.isNull then b else if fv.1 = k.bodyField then normalizeStr fv.2 else b

theorem upd_fold_builtin (k : EntityKind) (l : List (String × JValue)) :
    ∀ (w0 : World) (fm0 : List (String × JValue)) (b0 : List Char) (m0 : Bool),
    l.foldl (fun s fv => upd_step k false true fv s) ⟨w0, some ⟨fm0, b0⟩, [], m0, false, none⟩
      = ⟨w0, some ⟨l.foldl (builtinFmStep k) fm0, l.foldl (builtinBodyStep k) b0⟩, [],
          m0 || l.any (fun p => !p.2.isNull), false, none⟩ := by
  induction l with
  | nil => intro w0 fm0 b0 m0; simp
  | cons p r ih =>
    intro w0 fm0 b0 m0
    obtain ⟨f2, v2⟩ := p
    rw [List.foldl_cons]
    by_cases hnull : v2.isNull = true
    · have hstep : upd_step k false true (f2, v2)
          ⟨w0, some ⟨fm0, b0⟩, [], m0, false, none⟩
          = ⟨w0, some ⟨fm0, b0⟩, [], m0, false, none⟩ := by
        rw [upd_step]
        simp [hnull, upd_null]
      rw [hstep, ih]
      simp [builtinFmStep, builtinBodyStep, hnull]
    · by_cases hbf : f2 = k.bodyField
      · have hstep : upd_step k false true (f2, v2)
            ⟨w0, some ⟨fm0, b0⟩, [], m0, false, none⟩
            = ⟨w0, some ⟨fm0, normalizeStr v2⟩, [], true, false, none⟩ := by
          rw [upd_step]
          simp [hnull, hbf, upd_body]
        rw [hstep, ih]
        simp [builtinFmStep, builtinBodyStep, hnull, hbf]
      · have hstep : upd_step k false true (f2, v2)
            ⟨w0, some ⟨fm0, b0⟩, [], m0, false, none⟩
            = ⟨w0, some ⟨aset fm0 f2 v2, b0⟩, [], true, false, none⟩ := by
          rw [upd_step]
          simp [hnull, hbf, upd_ordinary]
        rw [hstep, ih]
        simp [builtinFmStep, builtinBodyStep, hnull, hbf]

theorem aset_append_of_absent {α β : Type} [DecidableEq α] (l : List (α × β)) (a : α) (b : β)
    (h : alookup l a = none) : aset l a b = l ++ [(a, b)] := by
  induction l with
  | nil => rfl
  | cons p r ih =>
    obtain ⟨k, v⟩ := p
    rw [alookup_cons] at h
    by_cases hk : k = a
    · rw [if_pos hk] at h
      exact absurd h (by simp)
    · rw [if_neg hk] at h
      simp [aset, hk, ih h]

theorem alookup_append_left_none {α β : Type} [DecidableEq α] (l1 l2 : List (α × β)) (a : α)
    (h : alookup l1 a = none) : alookup (l1 ++ l2) a = alookup l2 a := by
  induction l1 with
  | nil => rfl
  | cons p r ih =>
    obtain ⟨k, v⟩ := p
    rw [alookup_cons] at h
    by_cases hk : k = a
    · rw [if_pos hk] at h
      exact absurd h (by simp)
    · rw [if_neg hk] at h
      simp [alookup, hk, ih h]

/-- The frontmatter of a freshly materialized record: exactly the non-null,
non-body updated fields, in order. -/
def builtinFmOf (k : EntityKind) (updates : List (String × JValue)) : List (String × JValue) :=
  updates.filter (fun p => !p.2.isNull && !(decide (p.1 = k.bodyField)))

/-- The body of a freshly materialized record: the normalized body-field
value if a non-null one was supplied, empty otherwise. -/
def builtinBodyOf (k : EntityKind) (updates : List (String × JValue)) : List Char :=
  match alookup updates k.bodyField with
  | some v => if v.isNull then [] else normalizeStr v
  | none => []

theorem builtinFm_acc (k : EntityKind) (l : List (String × JValue)) :
    ∀ acc : List (String × JValue), (∀ p ∈ l, alookup acc p.1 = none) → uniqueKeys l →
      l.foldl (builtinFmStep k) acc = acc ++ builtinFmOf k l := by
  induction l with
  | nil => intro acc _ _; simp [builtinFmOf]
  | cons p r ih =>
    intro acc habs huniq
    obtain ⟨f2, v2⟩ := p
    have hkeys : ∀ q ∈ r, q.1 ≠ f2 := by
      intro q hq
      have hu := huniq
      rw [uniqueKeys, akeys, List.map_cons, List.nodup_cons] at hu
      intro hcontra
      have hmem : q.1 ∈ r.map Prod.fst := List.mem_map_of_mem Prod.fst hq
      rw [hcontra] at hmem
      exact hu.1 hmem
    have huniq2 : uniqueKeys r := by
      rw [uniqueKeys, akeys, List.map_cons, List.nodup_cons] at huniq
      exact huniq.2
    rw [List.foldl_cons]
    by_cases hnull : v2.isNull = true
    · rw [show builtinFmStep k acc (f2, v2) = acc by simp [builtinFmStep, hnull]]
      rw [ih acc (fun q hq => habs q (by simp [hq])) huniq2]
      simp [builtinFmOf, List.filter_cons, hnull]
    · by_cases hbf : f2 = k.bodyField
      · rw [show builtinFmStep k acc (f2, v2) = acc by simp [builtinFmStep, hnull, hbf]]
        rw [ih acc (fun q hq => habs q (by simp [hq])) huniq2]
        simp [builtinFmOf, List.filter_cons, hnull, hbf]
      · have hset : builtinFmStep k acc (f2, v2) = acc ++ [(f2, v2)] := by
          rw [builtinFmStep]
          simp only [hnull, hbf, if_false]
          exact aset_append_of_absent acc f2 v2 (habs (f2, v2) (by simp))
        rw [hset]
        rw [ih (acc ++ [(f2, v2)]) (fun q hq => by
          rw [alookup_append_left_none _ _ _ (habs q (by simp [hq])),
            alookup_cons, if_neg (fun h => hkeys q hq h.symm)]
          rfl) huniq2]
        simp [builtinFmOf, List.filter_cons, hnull, hbf]

theorem builtinBody_nokey (k : EntityKind) (l : List (String × JValue)) :
    ∀ b : List Char, (∀ p ∈ l, p.1 ≠ k.bodyField) →
      l.foldl (builtinBodyStep k) b = b := by
  induction l with
  | nil => intro b _; rfl
  | cons p r ih =>
    intro b hall
    rw [List.foldl_cons]
    have hstep : builtinBodyStep k b p = b := by
      rw [builtinBodyStep]
      simp [hall p (by simp)]
    rw [hstep, ih b (fun q hq => hall q (by simp [hq]))]

theorem builtinBody_char (k : EntityKind) (l : List (String × JValue)) (huniq : uniqueKeys l) :
    l.foldl (builtinBodyStep k) [] = builtinBodyOf k l := by
  induction l with
  | nil => rfl
  | cons p r ih =>
    obtain ⟨f2, v2⟩ := p
    have hkeys : ∀ q ∈ r, q.1 ≠ f2 := by
      intro q hq
      have hu := huniq
      rw [uniqueKeys, akeys, List.map_cons, List.nodup_cons] at hu
      intro hcontra
      have hmem : q.1 ∈ r.map Prod.fst := List.mem_map_of_mem Prod.fst hq
      rw [hcontra] at hmem
      exact hu.1 hmem
    have huniq2 : uniqueKeys r := by
      rw [uniqueKeys, akeys, List.map_cons, List.nodup_cons] at huniq
      exact huniq.2
    rw [List.foldl_cons]
    by_cases hbf : f2 = k.bodyField
    · have hnk : ∀ q ∈ r, q.1 ≠ k.bodyField := fun q hq h => hkeys q hq (h.trans hbf.symm)
      by_cases hnull : v2.isNull = true
      · rw [show builtinBodyStep k [] (f2, v2) = [] by simp [builtinBodyStep, hnull]]
        rw [builtinBody_nokey k r [] hnk]
        simp [builtinBodyOf, alookup, hbf, hnull]
      · rw [show builtinBodyStep k [] (f2, v2) = normalizeStr v2 by
          simp [builtinBodyStep, hnull, hbf]]
        rw [builtinBody_nokey k r (normalizeStr v2) hnk]
        simp [builtinBodyOf, alookup, hbf, hnull]
    · rw [show builtinBodyStep k [] (f2, v2) = [] by simp [builtinBodyStep, hbf]]
      rw [ih huniq2]
      simp [builtinBodyOf, alookup, hbf]

theorem write_config_at_preserves (cfg : JValue) (p : Path) (w : World) (q : Path)
    (hq1 : q ≠ p) (hq2 : backup_path p ≠ some q) :
    alookup (write_config_at cfg p w).1.files q = alookup w.files q := by
  rw [write_config_at]
  by_cases hex : existsF w p = true
  · rw [if_pos hex]
    cases hbp : backup_path p with
    | none =>
      cases hal : alookup w.files p with
      | none => rfl
      | some fc => rfl
    | some bp =>
      cases hal : alookup w.files p with
      | none =>
        simp [existsF, hal] at hex
      | some fc =>
        show alookup (aset (aset w.files bp fc) p (.jsonF cfg)) q = alookup w.files q
        rw [alookup_aset_ne _ _ _ _ (fun h => hq1 h.symm),
          alookup_aset_ne _ _ _ _ (fun h => hq2 (hbp.trans (by rw [h])))]
  · rw [if_neg hex]
    show alookup (aset w.files p (.jsonF cfg)) q = alookup w.files q
    rw [alookup_aset_ne _ _ _ _ (fun h => hq1 h.symm)]

theorem write_config_at_ok (cfg : JValue) (p : Path) (w : World) (hp : p ≠ []) :
    (write_config_at cfg p w).2 = none
    ∧ alookup (write_config_at cfg p w).1.files p = some (.jsonF cfg) := by
  rw [write_config_at]
  by_cases hex : existsF w p = true
  · rw [if_pos hex]
    have hl : p.getLast? = some (p.getLast hp) := List.getLast?_eq_getLast p hp
    have hbp : backup_path p
        = some (p.dropLast ++ [p.getLast hp ++ (".openchamber.backup")]) := by
      rw [backup_path, hl]
    cases hal : alookup w.files p with
    | none =>
      simp [existsF, hal] at hex
    | some fc =>
      rw [hbp]
      exact ⟨rfl, by
        show alookup (aset (aset w.files _ fc) p (.jsonF cfg)) p = some (.jsonF cfg)
        rw [alookup_aset_self]⟩
  · rw [if_neg hex]
    exact ⟨rfl, by
      show alookup (aset w.files p (.jsonF cfg)) p = some (.jsonF cfg)
      rw [alookup_aset_self]⟩

theorem insert_entity_tree_entry (tree : JValue) (s n : String)
    (recObj : List (String × JValue)) :
    layer_entry (insert_entity_tree tree s n recObj) s n = some (.obj recObj) := by
  rw [insert_entity_tree, layer_entry]
  show (match jget (JValue.obj (aset _ s _)) s with
    | some sec => match sec.asObj with
      | some o => alookup o n
      | none => none
    | none => none) = _
  rw [jget, alookup_aset_self]
  show alookup (aset _ n (JValue.obj recObj)) n = _
  rw [alookup_aset_self]

theorem alookup_isSome_nonempty {α β : Type} [DecidableEq α] (l : List (α × β)) (a : α)
    (h : (alookup l a).isSome = true) : l.isEmpty = false := by
  cases l with
  | nil => simp [alookup] at h
  | cons p r => rfl

/-- Characterization of a single null-valued edit: the field is removed from
the Markdown frontmatter when the file exists and holds it (rewriting the
file), and independently from the JSON record when present there (rewriting
the found layer); stores without the field are untouched. -/
theorem null_update_eq (k : EntityKind) (name f : String) (wd customPath : Option Path)
    (w : World) (layers : ConfigLayers)
    (hlayers : read_config_layers wd customPath w = some layers) :
    update_entity k name [(f, JValue.null)] wd customPath w
      = (let mdPath := (get_entity_write_path k name wd none w).2
         let fm0 := (parse_md_file w mdPath).frontmatter
         let body0 := (parse_md_file w mdPath).body
         let rec0 :=
           match (get_json_entry_source layers k.sectionKey name).value.bind JValue.asObj with
           | some o => o
           | none => []
         let jp := json_target_path k name wd layers
         let w1 :=
           if existsF w mdPath && (alookup fm0 f).isSome then
             write_md_file mdPath (aerase fm0 f) body0 w
           else w
         if (alookup rec0 f).isSome then
           write_config_at
             (insert_entity_tree (layer_tree layers (get_config_for_path layers jp))
               k.sectionKey name (aerase rec0 f)) jp w1
         else (w1, none)) := by
  simp only [update_entity, hlayers]
  cases hsv : (get_json_entry_source layers k.sectionKey name).value.bind JValue.asObj with
  | none =>
    by_cases hmd : existsF w (get_entity_write_path k name wd none w).2 = true
    · by_cases hfh : (alookup (parse_md_file w (get_entity_write_path k name wd none w).2).frontmatter f).isSome = true
      · simp [hmd, hfh, upd_step, JValue.isNull, upd_null, alookup]
      · simp [hmd, hfh, upd_step, JValue.isNull, upd_null, alookup]
    · simp only [Bool.not_eq_true] at hmd
      simp [hmd, upd_step, JValue.isNull, upd_null, alookup]
  | some o =>
    by_cases hjh : (alookup o f).isSome = true
    · have hoe : o.isEmpty = false := alookup_isSome_nonempty o f hjh
      by_cases hmd : existsF w (get_entity_write_path k name wd none w).2 = true
      · by_cases hfh : (alookup (parse_md_file w (get_entity_write_path k name wd none w).2).frontmatter f).isSome = true
        · simp [hmd, hfh, hjh, hoe, upd_step, JValue.isNull, upd_null, alookup]
        · simp [hmd, hfh, hjh, hoe, upd_step, JValue.isNull, upd_null, alookup]
      · simp only [Bool.not_eq_true] at hmd
        simp [hmd, hjh, hoe, upd_step, JValue.isNull, upd_null, alookup]
    · by_cases hmd : existsF w (get_entity_write_path k name wd none w).2 = true
      · by_cases hfh : (alookup (parse_md_file w (get_entity_write_path k name wd none w).2).frontmatter f).isSome = true
        · simp [hmd, hfh, hjh, upd_step, JValue.isNull, upd_null, alookup]
        · simp [hmd, hfh, hjh, upd_step, JValue.isNull, upd_null, alookup]
      · simp only [Bool.not_eq_true] at hmd
        by_cases hoe : o.isEmpty = true
        · simp [hmd, hjh, hoe, upd_step, JValue.isNull, upd_null, alookup]
        · simp [hmd, hjh, hoe, upd_step, JValue.isNull, upd_null, alookup]

theorem mdFmAt_write_md (w : World) (p : Path) (fm : List (String × JValue))
    (body : List Char) (f : String) :
    mdFmAt (write_md_file p fm body w) p f = alookup (cleanFm fm) f := by
  rw [mdFmAt, parse_md_file, fileTextAt, write_md_file]
  show alookup (parse_md_content
      (match alookup (aset w.files p (.textF (write_md_content fm body))) p with
        | some fc => fileText fc
        | none => [])).frontmatter f = _
  rw [alookup_aset_self]
  show alookup (parse_md_content (write_md_content fm body)).frontmatter f = _
  rw [parse_write_md]

theorem mdFmAt_write_config (cfg : JValue) (jp : Path) (w : World) (q : Path) (f : String)
    (h1 : q ≠ jp) (h2 : backup_path jp ≠ some q) :
    mdFmAt (write_config_at cfg jp w).1 q f = mdFmAt w q f := by
  rw [mdFmAt, mdFmAt, parse_md_file, parse_md_file, fileTextAt, fileTextAt,
    write_config_at_preserves cfg jp w q h1 h2]

theorem jsonEntryAt_write_config (cfg : JValue) (jp : Path) (w : World) (s n : String)
    (hnil : jp ≠ []) :
    jsonEntryAt (write_config_at cfg jp w).1 jp s n = layer_entry cfg s n := by
  rw [jsonEntryAt, (write_config_at_ok cfg jp w hnil).2]

/-! ## Claim C5: null-payload edits -/

/-- C5: a null-valued edit removes the field from the Markdown frontmatter
when present there, independently removes it from the JSON record when
present there (both removals when duplicated), and an edit whose field is
absent from both stores leaves the file store entirely unchanged with no
error. -/
theorem null_edit_removal (k : EntityKind) (name f : String) (wd customPath : Option Path)
    (w : World) (layers : ConfigLayers) (mdPath jp : Path)
    (hlayers : read_config_layers wd customPath w = some layers)
    (hmdp : (get_entity_write_path k name wd none w).2 = mdPath)
    (hjp : json_target_path k name wd layers = jp)
    (hjpnil : jp ≠ [])
    (hsep1 : jp ≠ mdPath)
    (hsep2 : backup_path jp ≠ some mdPath) :
    (mdFmAt w mdPath f ≠ none →
      mdFmAt (update_entity k name [(f, JValue.null)] wd customPath w).1 mdPath f = none)
    ∧ (∀ rec0 : List (String × JValue),
        (get_json_entry_source layers k.sectionKey name).value.bind JValue.asObj
          = some rec0 →
        (alookup rec0 f).isSome = true →
        (update_entity k name [(f, JValue.null)] wd customPath w).2 = none
        ∧ jsonEntryAt (update_entity k name [(f, JValue.null)] wd customPath w).1 jp
            k.sectionKey name = some (JValue.obj (aerase rec0 f)))
    ∧ (mdFmAt w mdPath f = none →
        alookup (match (get_json_entry_source layers k.sectionKey name).value.bind
            JValue.asObj with
          | some o => o
          | none => []) f = none →
        update_entity k name [(f, JValue.null)] wd customPath w = (w, none)) := by
  have hu := null_update_eq k name f wd customPath w layers hlayers
  rw [hmdp, hjp] at hu
  refine ⟨?_, ?_, ?_⟩
  · intro hfm
    have hxsome : (alookup (parse_md_file w mdPath).frontmatter f).isSome = true := by
      rw [mdFmAt] at hfm
      cases h : alookup (parse_md_file w mdPath).frontmatter f with
      | none => exact absurd h hfm
      | some x => rfl
    have hmdE : existsF w mdPath = true := by
      by_cases h : existsF w mdPath = true
      · exact h
      · exact absurd (mdFmAt_absent w mdPath f (by simpa using h)) hfm
    simp only [hmdE, hxsome, Bool.and_self, if_true] at hu
    have hclean : alookup (cleanFm (aerase (parse_md_file w mdPath).frontmatter f)) f
        = none := by
      rw [alookup_cleanFm_of_ne_null _ _ (fun y hy => by
        rw [alookup_aerase_self] at hy
        exact absurd hy (by simp))]
      exact alookup_aerase_self _ f
    cases hsv : (get_json_entry_source layers k.sectionKey name).value.bind JValue.asObj with
    | none =>
      simp only [hsv, alookup_nil, Option.isSome_none, Bool.false_eq_true, if_false] at hu
      rw [hu, mdFmAt_write_md]
      exact hclean
    | some o =>
      simp only [hsv] at hu
      by_cases hjh : (alookup o f).isSome = true
      · simp only [hjh, if_true] at hu
        rw [hu, mdFmAt_write_config _ _ _ _ _ (fun h => hsep1 h.symm) hsep2,
          mdFmAt_write_md]
        exact hclean
      · simp only [hjh, Bool.false_eq_true, if_false] at hu
        rw [hu, mdFmAt_write_md]
        exact hclean
  · intro rec0 hre hjs
    simp only [hre, hjs, if_true] at hu
    rw [hu]
    constructor
    · exact (write_config_at_ok _ jp _ hjpnil).1
    · rw [jsonEntryAt_write_config _ _ _ _ _ hjpnil, insert_entity_tree_entry]
  · intro hmd0 hrec0
    rw [mdFmAt] at hmd0
    have hnofm : (alookup (parse_md_file w mdPath).frontmatter f).isSome = false := by
      rw [hmd0]
      rfl
    have hnoj : (alookup (match (get_json_entry_source layers k.sectionKey name).value.bind
        JValue.asObj with
      | some o => o
      | none => []) f).isSome = false := by
      rw [hrec0]
      rfl
    simp only [hnofm, Bool.and_false, Bool.false_eq_true, if_false, hnoj] at hu
    exact hu

def c5WitWorld : World :=
  ⟨[(get_user_entity_path agentKind ("s"),
      FileC.textF (write_md_content [(("x"), JValue.num 1)] [('b')])),
    (get_config_file,
      FileC.jsonF (JValue.obj [(("agent"),
        JValue.obj [(("s"), JValue.obj [(("x"), JValue.num 2)])])]))]⟩

def c5WitLayers : ConfigLayers :=
  (read_config_layers none none c5WitWorld).getD ⟨.null, .null, .null, .null, ⟨[], none, none⟩⟩

/-- C5 witness: a concrete null-valued edit of a field duplicated in the
Markdown frontmatter and the JSON record. -/
theorem null_edit_removal_witness :
    (mdFmAt c5WitWorld (get_user_entity_path agentKind ("s")) ("x") ≠ none →
      mdFmAt (update_entity agentKind ("s") [(("x"), JValue.null)] none none c5WitWorld).1
        (get_user_entity_path agentKind ("s")) ("x") = none)
    ∧ (∀ rec0 : List (String × JValue),
        (get_json_entry_source c5WitLayers agentKind.sectionKey ("s")).value.bind
            JValue.asObj = some rec0 →
        (alookup rec0 ("x")).isSome = true →
        (update_entity agentKind ("s") [(("x"), JValue.null)] none none c5WitWorld).2 = none
        ∧ jsonEntryAt (update_entity agentKind ("s") [(("x"), JValue.null)] none none
              c5WitWorld).1
            (json_target_path agentKind ("s") none c5WitLayers)
            agentKind.sectionKey ("s") = some (JValue.obj (aerase rec0 ("x"))))
    ∧ (mdFmAt c5WitWorld (get_user_entity_path agentKind ("s")) ("x") = none →
        alookup (match (get_json_entry_source c5WitLayers agentKind.sectionKey
            ("s")).value.bind JValue.asObj with
          | some o => o
          | none => []) ("x") = none →
        update_entity agentKind ("s") [(("x"), JValue.null)] none none c5WitWorld
          = (c5WitWorld, none)) :=
  null_edit_removal agentKind ("s") ("x") none none c5WitWorld c5WitLayers
    (get_user_entity_path agentKind ("s"))
    (json_target_path agentKind ("s") none c5WitLayers)
    (by decide) (by decide) rfl (by decide) (by decide) (by decide)

theorem uniq_lookup {β : Type} (l : List (String × β)) (a : String) (b : β)
    (hu : uniqueKeys l) (hm : (a, b) ∈ l) : ∀ p ∈ l, p.1 = a → p.2 = b := by
  induction l with
  | nil => intro p hp; simp at hp
  | cons q r ih =>
    intro p hp hpa
    have hu2 : uniqueKeys r := by
      rw [uniqueKeys, akeys, List.map_cons, List.nodup_cons] at hu
      exact hu.2
    have hnotin : q.1 ∉ r.map Prod.fst := by
      rw [uniqueKeys, akeys, List.map_cons, List.nodup_cons] at hu
      exact hu.1
    cases hm with
    | head =>
      cases hp with
      | head => rfl
      | tail _ hp2 =>
        have hmem2 : p.1 ∈ r.map Prod.fst := List.mem_map_of_mem Prod.fst hp2
        rw [hpa] at hmem2
        exact absurd hmem2 (by simpa using hnotin)
    | tail _ hm2 =>
      cases hp with
      | head =>
        have hmem2 : a ∈ r.map Prod.fst := by
          have := List.mem_map_of_mem Prod.fst hm2
          simpa using this
        rw [← hpa] at hmem2
        exact absurd hmem2 hnotin
      | tail _ hp2 => exact ih hu2 hm2 p hp2 hpa

theorem write_config_at_ok_of_err_none (cfg : JValue) (p : Path) (w : World)
    (h : (write_config_at cfg p w).2 = none) :
    alookup (write_config_at cfg p w).1.files p = some (.jsonF cfg) := by
  rw [write_config_at] at h ⊢
  by_cases hex : existsF w p = true
  · rw [if_pos hex] at h ⊢
    cases hbp : backup_path p with
    | none =>
      cases hal : alookup w.files p with
      | none =>
        simp [existsF, hal] at hex
      | some fc =>
        rw [hbp, hal] at h
        exact absurd h (by simp)
    | some bp =>
      cases hal : alookup w.files p with
      | none =>
        simp [existsF, hal] at hex
      | some fc =>
        show alookup (aset (aset w.files bp fc) p (.jsonF cfg)) p = some (.jsonF cfg)
        rw [alookup_aset_self]
  · rw [if_neg hex]
    show alookup (aset w.files p (.jsonF cfg)) p = some (.jsonF cfg)
    rw [alookup_aset_self]

/-! ## Claim C1: JSON wins ties for non-null, non-body fields -/

/-- C1 (amended): for an error-free update, every edited field with a
non-null value other than the body-bearing field whose key is present in the
existing JSON record is applied to the JSON record on disk (JSON wins ties
over Markdown), and a (non-null) Markdown frontmatter entry for that key is
left unchanged even when a Markdown file for the entity exists. -/
theorem json_wins_field_update (k : EntityKind) (name f : String) (v : JValue)
    (updates : List (String × JValue)) (wd customPath : Option Path) (w : World)
    (layers : ConfigLayers) (mdPath jp : Path) (rec0 : List (String × JValue))
    (hlayers : read_config_layers wd customPath w = some layers)
    (hmdp : (get_entity_write_path k name wd none w).2 = mdPath)
    (hjp : json_target_path k name wd layers = jp)
    (hsrcv : (get_json_entry_source layers k.sectionKey name).value.bind JValue.asObj
      = some rec0)
    (hf0 : (alookup rec0 f).isSome = true)
    (hmem : (f, v) ∈ updates)
    (huniq : uniqueKeys updates)
    (hv : v.isNull = false)
    (hb : f ≠ k.bodyField)
    (hok : (update_entity k name updates wd customPath w).2 = none)
    (hsep1 : jp ≠ mdPath)
    (hsep2 : backup_path jp ≠ some mdPath) :
    (∃ finRec : List (String × JValue),
      jsonEntryAt (update_entity k name updates wd customPath w).1 jp k.sectionKey name
        = some (JValue.obj finRec)
      ∧ alookup finRec f = some v)
    ∧ (∀ x : JValue, mdFmAt w mdPath f = some x → x.isNull = false →
        mdFmAt (update_entity k name updates wd customPath w).1 mdPath f = some x) := by
  have hvu : ∀ p ∈ updates, p.1 = f → p.2 = v := uniq_lookup updates f v huniq hmem
  have hoe : rec0.isEmpty = false := alookup_isSome_nonempty rec0 f hf0
  have hE : update_entity k name updates wd customPath w
      = (let st := updates.foldl
            (fun s fv => upd_step k (existsF w mdPath) false fv s)
            ⟨w, (if existsF w mdPath then some (parse_md_file w mdPath) else none),
              rec0, false, false, none⟩
         match st.err with
         | some e => (st.w, some e)
         | none =>
           let w1 :=
             if st.mdMod then
               match st.mdData with
               | some data => write_md_file mdPath data.frontmatter data.body st.w
               | none => st.w
             else st.w
           if st.jsonMod then
             write_config_at
               (insert_entity_tree (layer_tree layers (get_config_for_path layers jp))
                 k.sectionKey name st.jrec) jp w1
           else (w1, none)) := by
    simp only [update_entity, hlayers, hmdp, hjp, hsrcv, hoe, Bool.not_false,
      Bool.and_true, Bool.not_true, Bool.and_false, Bool.false_eq_true, if_false,
      Bool.and_self]
  rw [hE] at hok ⊢
  simp only at hok ⊢
  have herr : (updates.foldl
      (fun s fv => upd_step k (existsF w mdPath) false fv s)
      ⟨w, (if existsF w mdPath then some (parse_md_file w mdPath) else none),
        rec0, false, false, none⟩).err = none := by
    cases he : (updates.foldl
        (fun s fv => upd_step k (existsF w mdPath) false fv s)
        ⟨w, (if existsF w mdPath then some (parse_md_file w mdPath) else none),
          rec0, false, false, none⟩).err with
    | none => rfl
    | some e =>
      rw [he] at hok
      exact absurd hok (by simp)
  have hfold := upd_fold_json_hit k (existsF w mdPath) false f v hv hb updates
    ⟨w, (if existsF w mdPath then some (parse_md_file w mdPath) else none),
      rec0, false, false, none⟩ hmem hvu hf0 herr
  rw [herr] at hok ⊢
  simp only [hfold.2.1, if_true] at hok ⊢
  constructor
  · refine ⟨(updates.foldl (fun s fv => upd_step k (existsF w mdPath) false fv s)
      ⟨w, (if existsF w mdPath then some (parse_md_file w mdPath) else none),
        rec0, false, false, none⟩).jrec, ?_, hfold.1⟩
    rw [jsonEntryAt, write_config_at_ok_of_err_none _ _ _ hok]
    exact insert_entity_tree_entry _ _ _ _
  · intro x hx hxn
    have hmdE : existsF w mdPath = true := mdFmAt_present w mdPath f x hx
    have hfm0 : mdFmOf (⟨w, (if existsF w mdPath then some (parse_md_file w mdPath)
        else none), rec0, false, false, none⟩ : UpdSt) f = some x := by
      rw [mdFmOf]
      simp only [hmdE, if_true]
      exact hx
    have hfmst := hfold.2.2.trans hfm0
    have hwconst : (updates.foldl
        (fun s fv => upd_step k (existsF w mdPath) false fv s)
        ⟨w, (if existsF w mdPath then some (parse_md_file w mdPath) else none),
          rec0, false, false, none⟩).w = w := by
      rw [hmdE]
      rw [hmdE] at hfmst herr hfold
      exact upd_fold_w_mdE k false updates _
    rw [mdFmAt_write_config _ _ _ _ _ (fun h => hsep1 h.symm) hsep2]
    set st := updates.foldl
      (fun s fv => upd_step k (existsF w mdPath) false fv s)
      ⟨w, (if existsF w mdPath then some (parse_md_file w mdPath) else none),
        rec0, false, false, none⟩ with hstdef
    cases hmm : st.mdMod with
    | false =>
      simp only [hmm, Bool.false_eq_true, if_false]
      rw [hwconst]
      exact hx
    | true =>
      simp only [hmm, if_true]
      cases hmdd : st.mdData with
      | none =>
        rw [mdFmOf, hmdd] at hfmst
        exact absurd hfmst (by simp)
      | some data =>
        have hfmst2 : alookup data.frontmatter f = some x := by
          rw [mdFmOf, hmdd] at hfmst
          exact hfmst
        rw [hwconst, mdFmAt_write_md]
        rw [alookup_cleanFm_of_ne_null _ _ (fun y hy => by
          rw [hfmst2] at hy
          exact (Option.some.inj hy) ▸ hxn)]
        exact hfmst2

def c1WitWorld : World :=
  ⟨[(get_user_entity_path agentKind ("r"),
      FileC.textF (write_md_content [(("x"), JValue.num 1)] [('b')])),
    (get_config_file,
      FileC.jsonF (JValue.obj [(("agent"),
        JValue.obj [(("r"), JValue.obj [(("x"), JValue.num 2)])])]))]⟩

def c1WitLayers : ConfigLayers :=
  (read_config_layers none none c1WitWorld).getD ⟨.null, .null, .null, .null, ⟨[], none, none⟩⟩

/-- C1 witness: a concrete non-null, non-body field duplicated in JSON and
Markdown frontmatter — the edit lands in the JSON record and the frontmatter
copy survives. -/
theorem json_wins_field_update_witness :
    (∃ finRec : List (String × JValue),
      jsonEntryAt (update_entity agentKind ("r") [(("x"), JValue.num 7)] none none
          c1WitWorld).1
          (json_target_path agentKind ("r") none c1WitLayers) agentKind.sectionKey ("r")
        = some (JValue.obj finRec)
      ∧ alookup finRec ("x") = some (JValue.num 7))
    ∧ (∀ x : JValue,
        mdFmAt c1WitWorld (get_user_entity_path agentKind ("r")) ("x") = some x →
        x.isNull = false →
        mdFmAt (update_entity agentKind ("r") [(("x"), JValue.num 7)] none none
            c1WitWorld).1
          (get_user_entity_path agentKind ("r")) ("x") = some x) :=
  json_wins_field_update agentKind ("r") ("x") (JValue.num 7)
    [(("x"), JValue.num 7)] none none c1WitWorld c1WitLayers
    (get_user_entity_path agentKind ("r"))
    (json_target_path agentKind ("r") none c1WitLayers) [(("x"), JValue.num 2)]
    (by decide) (by decide) rfl (by decide) (by decide) (by decide) (by decide)
    (by decide) (by decide) (by decide) (by decide) (by decide)

/-- C1 counterexample: the claim as stated fails for two kinds of edited
fields that are present in the existing JSON record.  A body-field edit
("prompt") is routed to the Markdown body and never applied to the JSON
record, and a null-valued edit removes the Markdown frontmatter copy instead
of leaving it unchanged. -/
theorem json_wins_field_update_counterexample :
    ((update_entity agentKind ("r")
        [(("prompt"), JValue.str ("new")), (("x"), JValue.null)] none none
        ⟨[(get_user_entity_path agentKind ("r"),
            FileC.textF (write_md_content [(("x"), JValue.num 1)] [('b')])),
          (get_config_file,
            FileC.jsonF (JValue.obj [(("agent"),
              JValue.obj [(("r"),
                JValue.obj [(("prompt"), JValue.str ("old")),
                  (("x"), JValue.num 2)])])]))]⟩).2 = none)
    ∧ jsonEntryAt (update_entity agentKind ("r")
        [(("prompt"), JValue.str ("new")), (("x"), JValue.null)] none none
        ⟨[(get_user_entity_path agentKind ("r"),
            FileC.textF (write_md_content [(("x"), JValue.num 1)] [('b')])),
          (get_config_file,
            FileC.jsonF (JValue.obj [(("agent"),
              JValue.obj [(("r"),
                JValue.obj [(("prompt"), JValue.str ("old")),
                  (("x"), JValue.num 2)])])]))]⟩).1
        get_config_file (("agent") : String) ("r")
        = some (JValue.obj [(("prompt"), JValue.str ("old"))])
    ∧ mdFmAt
        (⟨[(get_user_entity_path agentKind ("r"),
            FileC.textF (write_md_content [(("x"), JValue.num 1)] [('b')])),
          (get_config_file,
            FileC.jsonF (JValue.obj [(("agent"),
              JValue.obj [(("r"),
                JValue.obj [(("prompt"), JValue.str ("old")),
                  (("x"), JValue.num 2)])])]))]⟩ : World)
        (get_user_entity_path agentKind ("r")) ("x") = some (JValue.num 1)
    ∧ mdFmAt (update_entity agentKind ("r")
        [(("prompt"), JValue.str ("new")), (("x"), JValue.null)] none none
        ⟨[(get_user_entity_path agentKind ("r"),
            FileC.textF (write_md_content [(("x"), JValue.num 1)] [('b')])),
          (get_config_file,
            FileC.jsonF (JValue.obj [(("agent"),
              JValue.obj [(("r"),
                JValue.obj [(("prompt"), JValue.str ("old")),
                  (("x"), JValue.num 2)])])]))]⟩).1
        (get_user_entity_path agentKind ("r")) ("x") = none := by
  refine ⟨by decide, by decide, by decide, by decide⟩

/-! ## Claim C2: builtin-override materialization -/

/-- C2 counterexample: updating a name with no Markdown file and no JSON
entry anywhere with a single null-valued field creates nothing at all — no
User-scope Markdown file appears (the claim as stated requires a file
containing exactly the updated fields). -/
theorem builtin_override_counterexample :
    (update_entity agentKind ("b") [(("x"), JValue.null)] none none ⟨[]⟩).2 = none
    ∧ alookup (update_entity agentKind ("b") [(("x"), JValue.null)] none none ⟨[]⟩).1.files
        (get_user_entity_path agentKind ("b")) = none := by
  refine ⟨by decide, by decide⟩

/-- C2 (amended): updating a name with no Markdown file at either scope and
no JSON entry in any layer, where at least one updated value is non-null,
writes exactly one file: a new User-scope Markdown file whose frontmatter is
exactly the non-null non-body updated fields and whose body is the (string)
body-field value if one was supplied; every other path — in particular every
JSON layer — is untouched.  An all-null update writes nothing. -/
theorem builtin_override_update (k : EntityKind) (name : String)
    (updates : List (String × JValue)) (wd customPath : Option Path) (w : World)
    (layers : ConfigLayers)
    (hscope : get_entity_scope k name wd w = (none, none))
    (hlayers : read_config_layers wd customPath w = some layers)
    (hjson : get_json_entry_source layers k.sectionKey name
      = JsonEntrySource.mk false none none)
    (huniq : uniqueKeys updates)
    (hnn : updates.any (fun p => !p.2.isNull) = true) :
    update_entity k name updates wd customPath w
      = (write_md_file (get_user_entity_path k name)
          (builtinFmOf k updates) (builtinBodyOf k updates) w, none)
    ∧ (∀ q : Path, q ≠ get_user_entity_path k name →
        alookup (update_entity k name updates wd customPath w).1.files q
          = alookup w.files q) := by
  have hmd := scope_none_user_absent k name wd w hscope
  have hwp := write_path_scope_none k name wd w hscope
  have hmain : update_entity k name updates wd customPath w
      = (write_md_file (get_user_entity_path k name)
          (builtinFmOf k updates) (builtinBodyOf k updates) w, none) := by
    rw [update_entity]
    rw [hwp]
    simp only [hlayers, hjson]
    simp only [Option.bind, JValue.asObj, hmd]
    simp only [List.isEmpty_nil, Bool.not_true, Bool.not_false, Bool.and_self, Bool.true_and,
      Bool.and_true, Bool.false_and, Bool.and_false, Bool.false_eq_true, if_false, if_true,
      Bool.not_not]
    rw [upd_fold_builtin k updates w [] [] false]
    simp only [Bool.false_or, hnn]
    rw [builtinFm_acc k updates [] (fun p _ => rfl) huniq,
      builtinBody_char k updates huniq]
    simp
  refine ⟨hmain, ?_⟩
  intro q hq
  rw [hmain]
  show alookup (aset w.files (get_user_entity_path k name) _) q = alookup w.files q
  rw [alookup_aset_ne _ _ _ _ (fun h => hq h.symm)]

def c2WitLayers : ConfigLayers :=
  (read_config_layers none none ⟨[]⟩).getD ⟨.null, .null, .null, .null, ⟨[], none, none⟩⟩

/-- C2 witness: materializing a builtin override on an empty file store with
one non-null field writes exactly the User-scope Markdown file. -/
theorem builtin_override_update_witness :
    update_entity agentKind ("b") [(("model"), JValue.str ("m"))] none none ⟨[]⟩
      = (write_md_file (get_user_entity_path agentKind ("b"))
          (builtinFmOf agentKind [(("model"), JValue.str ("m"))])
          (builtinBodyOf agentKind [(("model"), JValue.str ("m"))]) ⟨[]⟩, none) :=
  (builtin_override_update agentKind ("b") [(("model"), JValue.str ("m"))] none none ⟨[]⟩
    c2WitLayers (by decide) (by decide) (by decide) (by decide) (by decide)).1

/-! ## Claim C4: delete asymmetry for builtin entities -/

/-- When the entity has no Markdown file at either scope and no JSON entry in
any layer, the shared deletion walk removes and reports nothing. -/
theorem delete_core_builtin (k : EntityKind) (name : String) (wd customPath : Option Path)
    (w : World) (layers : ConfigLayers)
    (hlayers : read_config_layers wd customPath w = some layers)
    (hp : ∀ d, wd = some d → existsF w (get_project_entity_path d k name) = false)
    (hu : existsF w (get_user_entity_path k name) = false)
    (hsrc : (get_json_entry_source layers k.sectionKey name).present = false) :
    delete_entity_core k name wd customPath w = ⟨w, false, some layers, none⟩ := by
  rw [delete_entity_core.eq_def]
  cases wd with
  | none =>
    simp only [hu, Bool.false_eq_true, if_false, hlayers]
    rw [hsrc]
  | some d =>
    simp only [hp d rfl, hu, Bool.false_eq_true, if_false, hlayers]
    rw [hsrc]

/-- C4: for a name with no Markdown file at either scope and no JSON entry in
any layer, `delete_agent` succeeds and writes the disabling marker for that
name into the highest-precedence available JSON layer, while `delete_command`
fails with the not-found error and leaves the file store unchanged. -/
theorem delete_builtin_asymmetry (name : String) (wd customPath : Option Path) (w : World)
    (layers : ConfigLayers) (jp : Path)
    (hlayers : read_config_layers wd customPath w = some layers)
    (hpA : ∀ d, wd = some d → existsF w (get_project_entity_path d agentKind name) = false)
    (hpC : ∀ d, wd = some d → existsF w (get_project_entity_path d commandKind name) = false)
    (huA : existsF w (get_user_entity_path agentKind name) = false)
    (huC : existsF w (get_user_entity_path commandKind name) = false)
    (hsrcA : (get_json_entry_source layers (("agent") : String) name).present = false)
    (hsrcC : (get_json_entry_source layers (("command") : String) name).present = false)
    (hjp : get_json_write_target layers
      (if wd.isSome then some Scope.project else some Scope.user) = jp)
    (hjpnil : jp ≠ []) :
    ((delete_agent name wd customPath w).2 = none
      ∧ jsonEntryAt (delete_agent name wd customPath w).1 jp (("agent") : String) name
        = some (JValue.obj [(("disable"), JValue.bool true)]))
    ∧ delete_command name wd customPath w = (w, some CfgError.notFound) := by
  have hcoreA : delete_entity_core agentKind name wd customPath w
      = ⟨w, false, some layers, none⟩ :=
    delete_core_builtin agentKind name wd customPath w layers hlayers hpA huA hsrcA
  have hcoreC : delete_entity_core commandKind name wd customPath w
      = ⟨w, false, some layers, none⟩ :=
    delete_core_builtin commandKind name wd customPath w layers hlayers hpC huC hsrcC
  constructor
  · rw [delete_agent, hcoreA]
    simp only [hjp, Bool.false_eq_true, if_false]
    constructor
    · exact (write_config_at_ok _ jp w hjpnil).1
    · rw [jsonEntryAt]
      rw [(write_config_at_ok _ jp w hjpnil).2]
      exact insert_entity_tree_entry _ _ _ _
  · rw [delete_command, hcoreC]
    rfl

def deleteWitWorld : World := ⟨[(get_config_file, FileC.jsonF (.obj []))]⟩

def deleteWitLayers : ConfigLayers :=
  ⟨.obj [], .obj [], .obj [], .obj [], ⟨get_config_file, none, none⟩⟩

/-- C4 witness: concrete builtin deletion — the agent delete writes the
disable marker into the user layer, the command delete fails. -/
theorem delete_builtin_asymmetry_witness :
    (((delete_agent ("z") none none deleteWitWorld).2 = none
      ∧ jsonEntryAt (delete_agent ("z") none none deleteWitWorld).1 get_config_file
          (("agent") : String) ("z")
        = some (JValue.obj [(("disable"), JValue.bool true)]))
    ∧ delete_command ("z") none none deleteWitWorld
        = (deleteWitWorld, some CfgError.notFound)) :=
  delete_builtin_asymmetry ("z") none none deleteWitWorld deleteWitLayers get_config_file
    (by decide) (by intro d h; cases h) (by intro d h; cases h) (by decide) (by decide)
    (by decide) (by decide) (by decide) (by decide)

/-! ## Claim C6: deep merge with an empty overlay -/

/-- C6 counterexample: the claim `merge(X, \x7b\x7d) == X` for every `X`
fails for non-object `X`; merging the scalar `5` with an empty overlay
returns the empty object, not `5`. -/
theorem merge_empty_overlay_counterexample :
    merge_values (JValue.num 5) (JValue.obj []) ≠ JValue.num 5 := by
  decide

/-- C6 (amended): merging with an empty object overlay returns the base
unchanged when the base is an object; for any non-object base the result is
the empty overlay object itself. -/
theorem merge_empty_overlay_amended (X : JValue) :
    merge_values X (JValue.obj []) = if X.isObj then X else JValue.obj [] := by
  cases X <;> simp [merge_values, mergeInto, JValue.isObj]

/-! ## Claim C8: Markdown scope resolution -/

/-- C8: scope resolution (this is `get_agent_scope` and `get_command_scope`,
both instances of `get_entity_scope`) returns Project with the project path
whenever a working directory is supplied and the project-level file exists —
regardless of the user-level file; otherwise User with the user path when the
user-level file exists; otherwise nothing.  With no working directory it
never returns Project. -/
theorem scope_resolution_precedence (k : EntityKind) (name : String) (w : World) :
    (∀ d : Path, existsF w (get_project_entity_path d k name) = true →
      get_entity_scope k name (some d) w
        = (some Scope.project, some (get_project_entity_path d k name)))
    ∧ (∀ wd : Option Path,
        (∀ d, wd = some d → existsF w (get_project_entity_path d k name) = false) →
        existsF w (get_user_entity_path k name) = true →
        get_entity_scope k name wd w
          = (some Scope.user, some (get_user_entity_path k name)))
    ∧ (∀ wd : Option Path,
        (∀ d, wd = some d → existsF w (get_project_entity_path d k name) = false) →
        existsF w (get_user_entity_path k name) = false →
        get_entity_scope k name wd w = (none, none))
    ∧ (get_entity_scope k name none w).1 ≠ some Scope.project := by
  refine ⟨?_, ?_, ?_, ?_⟩
  · intro d h
    simp [get_entity_scope, h]
  · intro wd hproj huser
    cases wd with
    | none => simp [get_entity_scope, huser]
    | some d => simp [get_entity_scope, hproj d rfl, huser]
  · intro wd hproj huser
    cases wd with
    | none => simp [get_entity_scope, huser]
    | some d => simp [get_entity_scope, hproj d rfl, huser]
  · by_cases huser : existsF w (get_user_entity_path k name) = true
    · simp [get_entity_scope, huser]
    · simp [get_entity_scope, Bool.eq_false_iff.mpr huser]

def scopeWitWorld : World :=
  ⟨[(get_project_entity_path (["wd"]) agentKind ("a"), FileC.textF []),
    (get_user_entity_path agentKind ("a"), FileC.textF [])]⟩

/-- C8 witness: with both a project-scope and a user-scope agent file present,
resolution picks Project. -/
theorem scope_resolution_precedence_witness :
    get_entity_scope agentKind ("a") (some (["wd"])) scopeWitWorld
      = (some Scope.project, some (get_project_entity_path (["wd"]) agentKind ("a"))) :=
  (scope_resolution_precedence agentKind ("a") scopeWitWorld).1 (["wd"]) (by decide)

/-! ## Claim C9: Markdown write/parse round trip -/

/-- C9 counterexample: the round trip does not return the body verbatim — the
parser trims it.  Writing the body consisting of a space and `x` parses back
with body `x`. -/
theorem md_round_trip_counterexample :
    parse_md_content (write_md_content [] [' ', 'x'])
      ≠ MdData.mk [] [' ', 'x'] := by
  decide

/-- C9 (amended): writing a Markdown record with `write_md_file` and parsing
it back with `parse_md_file` yields the frontmatter minus null-valued keys,
and the trimmed body. -/
theorem md_round_trip (w : World) (p : Path) (fm : List (String × JValue)) (body : List Char) :
    parse_md_file (write_md_file p fm body w) p = MdData.mk (cleanFm fm) (trimChars body) := by
  rw [parse_md_file, write_md_file, fileTextAt]
  show parse_md_content
      (match alookup (aset w.files p (.textF (write_md_content fm body))) p with
        | some fc => fileText fc
        | none => []) = _
  rw [alookup_aset_self]
  exact parse_write_md fm body

/-! ## Claim C3: backup policy -/

/-- C3 counterexample: `write_md_file` overwrites a pre-existing Markdown
file without creating any backup — after the overwrite the store contains
only the Markdown path itself (in particular no backup sibling). -/
theorem backup_policy_counterexample :
    (existsF (⟨[(get_user_entity_path agentKind ("a"), FileC.textF ['o'])]⟩ : World)
        (get_user_entity_path agentKind ("a")) = true)
    ∧ alookup (write_md_file (get_user_entity_path agentKind ("a")) [] []
          ⟨[(get_user_entity_path agentKind ("a"), FileC.textF ['o'])]⟩).files
        (get_user_entity_path agentKind ("a")) ≠ some (FileC.textF ['o'])
    ∧ ∀ q ∈ (write_md_file (get_user_entity_path agentKind ("a")) [] []
          ⟨[(get_user_entity_path agentKind ("a"), FileC.textF ['o'])]⟩).files,
        q.1 = get_user_entity_path agentKind ("a") := by
  refine ⟨by decide, by decide, by decide⟩

theorem backup_path_ne (p bp : Path) (h : backup_path p = some bp) : bp ≠ p := by
  rw [backup_path] at h
  cases hlast : p.getLast? with
  | none => rw [hlast] at h; exact absurd h (by simp)
  | some fname =>
    rw [hlast] at h
    simp only [Option.some.injEq] at h
    subst h
    intro hcontra
    have hlen := congrArg List.length hcontra
    simp only [List.length_append, List.length_singleton] at hlen
    have hdrop : p.dropLast.length + 1 = p.length := by
      have hne : p ≠ [] := by
        intro hnil
        rw [hnil] at hlast
        exact absurd hlast (by simp)
      have := List.length_dropLast p
      cases p with
      | nil => exact absurd rfl hne
      | cons a l => simp [List.length_dropLast]
    have hlast2 : (p.dropLast ++ [fname ++ (".openchamber.backup")]).getLast? = p.getLast? := by
      rw [hcontra]
    rw [List.getLast?_concat, hlast] at hlast2
    have hfe : fname ++ (".openchamber.backup") = fname := Option.some.inj hlast2
    have hlf := congrArg String.length hfe
    rw [String.length_append] at hlf
    have h19 : (".openchamber.backup").length = 19 := by decide
    omega

/-- C3 (amended): the backup policy applies to JSON layer files: overwriting
an existing configuration file through `write_config_at` first copies its
previous content to the fixed-suffix backup sibling (one generation,
overwritten each time, the file itself then holding the new tree), while
`write_md_file` overwrites Markdown records with no backup, touching only the
target path. -/
theorem backup_policy (w : World) (cfg : JValue) (p : Path) (hne : p ≠ [])
    (hex : existsF w p = true) :
    (∃ bp, backup_path p = some bp ∧ bp ≠ p ∧
      (write_config_at cfg p w).2 = none ∧
      alookup (write_config_at cfg p w).1.files bp = alookup w.files p ∧
      alookup (write_config_at cfg p w).1.files p = some (.jsonF cfg))
    ∧ (∀ q fm body, (write_md_file q fm body w).files
        = aset w.files q (.textF (write_md_content fm body))) := by
  constructor
  · have hl : p.getLast? = some (p.getLast hne) := List.getLast?_eq_getLast p hne
    have hbp : backup_path p
        = some (p.dropLast ++ [p.getLast hne ++ (".openchamber.backup")]) := by
      rw [backup_path, hl]
    set bp := p.dropLast ++ [p.getLast hne ++ (".openchamber.backup")] with hbpdef
    have hbpne := backup_path_ne p bp hbp
    obtain ⟨fc, hfc⟩ : ∃ fc, alookup w.files p = some fc := by
      rw [existsF] at hex
      cases hal : alookup w.files p with
      | none => rw [hal] at hex; exact absurd hex (by simp)
      | some fc => exact ⟨fc, rfl⟩
    have hw : write_config_at cfg p w = (setFile (setFile w bp fc) p (.jsonF cfg), none) := by
      simp [write_config_at, hex, hbp, hfc]
    refine ⟨bp, hbp, hbpne, ?_, ?_, ?_⟩
    · rw [hw]
    · rw [hw, hfc]
      show alookup (aset (aset w.files bp fc) p (.jsonF cfg)) bp = some fc
      rw [alookup_aset_ne _ _ _ _ (fun h => hbpne h.symm), alookup_aset_self]
    · rw [hw]
      show alookup (aset (aset w.files bp fc) p (.jsonF cfg)) p = some (.jsonF cfg)
      rw [alookup_aset_self]
  · intro q fm body
    rfl

def backupWitWorld : World := ⟨[(get_config_file, FileC.jsonF (.obj []))]⟩

/-! ## Claim C7: JSON entry lookup precedence -/

/-- Spec-worded lookup: scan the layer trees strictly in precedence order
Override (custom), Project, User, and return the value and path of the first
layer whose tree has the section key as an object containing the name. -/
def find_json_entry_spec (layers : ConfigLayers) (sectionKey name : String) : JsonEntrySource :=
  match layer_entry layers.custom sectionKey name with
  | some v => ⟨true, layers.paths.custom, some v⟩
  | none =>
    match layer_entry layers.project sectionKey name with
    | some v => ⟨true, layers.paths.project, some v⟩
    | none =>
      match layer_entry layers.user sectionKey name with
      | some v => ⟨true, some layers.paths.user, some v⟩
      | none => ⟨false, none, none⟩

/-- Layers as produced by the loader: a layer with no configured path has the
empty object as its tree. -/
def loadedLayers (layers : ConfigLayers) : Prop :=
  (layers.paths.custom = none → layers.custom = .obj [])
    ∧ (layers.paths.project = none → layers.project = .obj [])

instance (layers : ConfigLayers) : Decidable (loadedLayers layers) := by
  rw [loadedLayers]
  infer_instance

/-- C7: for every set of loaded layers, `get_json_entry_source` implements
the strict precedence-order scan: it agrees everywhere with the spec-worded
first-match lookup (so a lower-precedence copy of a name is never returned
while a higher-precedence layer holds one), and every layer set produced by
`read_config_layers` is loaded in the required sense. -/
theorem json_entry_scan_spec (sectionKey name : String) :
    (∀ (wd customPath : Option Path) (w : World) (layers : ConfigLayers),
      read_config_layers wd customPath w = some layers → loadedLayers layers)
    ∧ (∀ layers : ConfigLayers, loadedLayers layers →
      get_json_entry_source layers sectionKey name
        = find_json_entry_spec layers sectionKey name) := by
  constructor
  · intro wd customPath w layers h
    simp only [read_config_layers, Option.bind_eq_bind, Option.bind_eq_some] at h
    obtain ⟨user, hu, project, hpj, custom, hcu, hfin⟩ := h
    have hl : layers
        = ⟨user, project, custom, merge_values (merge_values user project) custom,
            get_config_paths wd customPath⟩ := (Option.some.inj hfin).symm
    subst hl
    constructor
    · intro hcn
      have hcn2 : (get_config_paths wd customPath).custom = none := hcn
      rw [hcn2] at hcu
      simp [read_layer_opt] at hcu
      show custom = JValue.obj []
      simp [hcu]
    · intro hpn
      have hpn2 : (get_config_paths wd customPath).project = none := hpn
      rw [hpn2] at hpj
      simp [read_layer_opt] at hpj
      show project = JValue.obj []
      simp [hpj]
  · intro layers hload
    obtain ⟨hc, hp⟩ := hload
    cases hcu : layers.paths.custom with
    | none =>
      have hce : layer_entry layers.custom sectionKey name = none := by
        rw [hc hcu]
        rfl
      cases hpu : layers.paths.project with
      | none =>
        have hpe : layer_entry layers.project sectionKey name = none := by
          rw [hp hpu]
          rfl
        simp [get_json_entry_source, find_json_entry_spec, hcu, hce, hpu, hpe]
      | some projectPath =>
        cases hpe : layer_entry layers.project sectionKey name <;>
          simp [get_json_entry_source, find_json_entry_spec, hcu, hce, hpu, hpe]
    | some customPath =>
      cases hce : layer_entry layers.custom sectionKey name with
      | none =>
        cases hpu : layers.paths.project with
        | none =>
          have hpe : layer_entry layers.project sectionKey name = none := by
            rw [hp hpu]
            rfl
          simp [get_json_entry_source, find_json_entry_spec, hcu, hce, hpu, hpe]
        | some projectPath =>
          cases hpe : layer_entry layers.project sectionKey name <;>
            simp [get_json_entry_source, find_json_entry_spec, hcu, hce, hpu, hpe]
      | some v =>
        simp [get_json_entry_source, find_json_entry_spec, hcu, hce]

def jsonScanLayers : ConfigLayers :=
  ⟨.obj [(("agent"), .obj [(("x"), .obj [(("model"), .str ("u"))])])],
    .obj [(("agent"), .obj [(("x"), .obj [(("model"), .str ("p"))])])],
    .obj [],
    .obj [],
    ⟨get_config_file, some (["wd", "opencode.json"]), none⟩⟩

/-- C7 witness: with the same name in both the Project and the User layer,
the lookup agrees with the spec scan, hence returns the Project copy. -/
theorem json_entry_scan_spec_witness :
    get_json_entry_source jsonScanLayers ("agent") ("x")
      = find_json_entry_spec jsonScanLayers ("agent") ("x") :=
  (json_entry_scan_spec ("agent") ("x")).2 jsonScanLayers (by decide)

/-- C3 witness: overwriting the existing user JSON layer file creates the
backup sibling holding the previous content. -/
theorem backup_policy_witness :
    (∃ bp, backup_path get_config_file = some bp ∧ bp ≠ get_config_file ∧
      (write_config_at (.obj [(("a"), JValue.num 1)]) get_config_file backupWitWorld).2 = none ∧
      alookup (write_config_at (.obj [(("a"), JValue.num 1)])
          get_config_file backupWitWorld).1.files bp
        = alookup backupWitWorld.files get_config_file ∧
      alookup (write_config_at (.obj [(("a"), JValue.num 1)])
          get_config_file backupWitWorld).1.files get_config_file
        = some (.jsonF (.obj [(("a"), JValue.num 1)])))
    ∧ (∀ q fm body, (write_md_file q fm body backupWitWorld).files
        = aset backupWitWorld.files q (.textF (write_md_content fm body))) :=
  backup_policy backupWitWorld (.obj [(("a"), JValue.num 1)]) get_config_file
    (by decide) (by decide)

/-! ## Claim C10: coercion of non-string body values -/

theorem upd_null_inv (mdE : Bool) (field : String) (st : UpdSt) :
    (upd_null mdE field st).mdData.isSome = st.mdData.isSome
    ∧ (st.mdMod = true → (upd_null mdE field st).mdMod = true)
    ∧ (st.jsonMod = true → (upd_null mdE field st).jsonMod = true) := by
  unfold upd_null
  cases hmdd : st.mdData with
  | none =>
    cases mdE <;> by_cases hj : (alookup st.jrec field).isSome = true <;> simp_all
  | some data =>
    by_cases hfm : (alookup data.frontmatter field).isSome = true <;>
      cases mdE <;> by_cases hj : (alookup st.jrec field).isSome = true <;> simp_all

theorem upd_ordinary_inv (mdE cr : Bool) (field : String) (value : JValue) (st : UpdSt) :
    (upd_ordinary mdE cr field value st).mdData.isSome = st.mdData.isSome
    ∧ (st.mdMod = true → (upd_ordinary mdE cr field value st).mdMod = true)
    ∧ (st.jsonMod = true → (upd_ordinary mdE cr field value st).jsonMod = true) := by
  unfold upd_ordinary
  cases hmdd : st.mdData with
  | none =>
    by_cases hj : (alookup st.jrec field).isSome = true <;> cases cr <;> simp_all
  | some data =>
    by_cases hj : (alookup st.jrec field).isSome = true <;>
      by_cases hfm : (alookup data.frontmatter field).isSome = true <;>
        cases cr <;> cases mdE <;> simp_all

theorem upd_body_inv (k : EntityKind) (mdE cr : Bool) (value : JValue) (st : UpdSt) :
    (upd_body k mdE cr value st).mdData.isSome = st.mdData.isSome
    ∧ (st.mdMod = true → (upd_body k mdE cr value st).mdMod = true)
    ∧ (st.jsonMod = true → (upd_body k mdE cr value st).jsonMod = true) := by
  rw [upd_body]
  by_cases hmc : (mdE || cr) = true
  · simp only [hmc, if_true]
    cases hmdd : st.mdData <;> simp_all
  · simp only [hmc, Bool.false_eq_true, if_false]
    cases href : (alookup st.jrec k.bodyField).bind JValue.asStr with
    | none => simp_all
    | some refStr =>
      by_cases hpr : is_prompt_file_reference refStr = true
      · cases hres : resolve_prompt_file_path refStr <;> simp_all
      · simp_all

theorem upd_step_inv (k : EntityKind) (mdE cr : Bool) (fv : String × JValue) (st : UpdSt) :
    (upd_step k mdE cr fv st).mdData.isSome = st.mdData.isSome
    ∧ (st.mdMod = true → (upd_step k mdE cr fv st).mdMod = true)
    ∧ (st.jsonMod = true → (upd_step k mdE cr fv st).jsonMod = true) := by
  rw [upd_step]
  by_cases herr : st.err.isSome = true
  · simp [herr]
  · simp only [herr, Bool.false_eq_true, if_false]
    by_cases hnull : fv.2.isNull = true
    · simp only [hnull, if_true]
      exact upd_null_inv mdE fv.1 st
    · by_cases hbf : fv.1 = k.bodyField
      · simp only [hnull, hbf, if_false, if_true]
        exact upd_body_inv k mdE cr fv.2 st
      · simp only [hnull, hbf, if_false]
        exact upd_ordinary_inv mdE cr fv.1 fv.2 st

theorem upd_step_nonbody_we (k : EntityKind) (mdE cr : Bool) (fv : String × JValue)
    (st : UpdSt) (hne : fv.1 ≠ k.bodyField) :
    (upd_step k mdE cr fv st).w = st.w ∧ (upd_step k mdE cr fv st).err = st.err := by
  rw [upd_step]
  by_cases herr : st.err.isSome = true
  · simp [herr]
  · simp only [herr, Bool.false_eq_true, if_false]
    by_cases hnull : fv.2.isNull = true
    · simp only [hnull, if_true]
      exact upd_null_w mdE fv.1 st
    · simp only [hnull, hne, if_false]
      exact upd_ordinary_w mdE cr fv.1 fv.2 st

/-- A fold over keys all different from the body field preserves the Markdown
body, the JSON body entry, presence of the Markdown record, the file store
and the error, and keeps both dirty flags monotone. -/
theorem upd_fold_nonbody (k : EntityKind) (mdE cr : Bool) (l : List (String × JValue)) :
    ∀ st : UpdSt, (∀ p ∈ l, p.1 ≠ k.bodyField) →
      mdBodyOf (l.foldl (fun s fv => upd_step k mdE cr fv s) st) = mdBodyOf st
      ∧ alookup (l.foldl (fun s fv => upd_step k mdE cr fv s) st).jrec k.bodyField
          = alookup st.jrec k.bodyField
      ∧ (l.foldl (fun s fv => upd_step k mdE cr fv s) st).mdData.isSome = st.mdData.isSome
      ∧ (st.mdMod = true → (l.foldl (fun s fv => upd_step k mdE cr fv s) st).mdMod = true)
      ∧ (st.jsonMod = true → (l.foldl (fun s fv => upd_step k mdE cr fv s) st).jsonMod = true)
      ∧ (l.foldl (fun s fv => upd_step k mdE cr fv s) st).w = st.w
      ∧ (l.foldl (fun s fv => upd_step k mdE cr fv s) st).err = st.err := by
  induction l with
  | nil =>
    intro st _
    exact ⟨rfl, rfl, rfl, fun h => h, fun h => h, rfl, rfl⟩
  | cons p r ih =>
    intro st hall
    have hne : p.1 ≠ k.bodyField := hall p (by simp)
    have hbf := upd_step_body_frame k mdE cr p st hne
    have hinv := upd_step_inv k mdE cr p st
    have hwe := upd_step_nonbody_we k mdE cr p st hne
    have hrest := ih (upd_step k mdE cr p st) (fun q hq => hall q (by simp [hq]))
    rw [List.foldl_cons]
    exact ⟨hrest.1.trans hbf.1, hrest.2.1.trans hbf.2,
      hrest.2.2.1.trans hinv.1,
      fun h => hrest.2.2.2.1 (hinv.2.1 h),
      fun h => hrest.2.2.2.2.1 (hinv.2.2 h),
      hrest.2.2.2.2.2.1.trans hwe.1,
      hrest.2.2.2.2.2.2.trans hwe.2⟩

theorem mem_uniq_split {β : Type} (l : List (String × β)) (a : String) (b : β)
    (hm : (a, b) ∈ l) (hu : uniqueKeys l) :
    ∃ l1 l2, l = l1 ++ (a, b) :: l2
      ∧ (∀ p ∈ l1, p.1 ≠ a) ∧ (∀ p ∈ l2, p.1 ≠ a) := by
  obtain ⟨l1, l2, hsp⟩ := List.append_of_mem hm
  subst hsp
  rw [uniqueKeys, akeys, List.map_append, List.map_cons, List.nodup_append] at hu
  obtain ⟨h1, h2, hdisj⟩ := hu
  rw [List.nodup_cons] at h2
  refine ⟨l1, l2, rfl, ?_, ?_⟩
  · intro p hp hpa
    have hma : a ∈ l1.map Prod.fst := by
      rw [← hpa]
      exact List.mem_map_of_mem Prod.fst hp
    exact hdisj hma (List.mem_cons_self a _)
  · intro p hp hpa
    have hma : a ∈ l2.map Prod.fst := by
      rw [← hpa]
      exact List.mem_map_of_mem Prod.fst hp
    exact absurd hma h2.1

theorem upd_step_body_hit_md (k : EntityKind) (mdE cr : Bool) (v : JValue) (st : UpdSt)
    (data : MdData) (hmc : (mdE || cr) = true) (hv : v.isNull = false)
    (he : st.err.isSome = false) (hmd : st.mdData = some data) :
    upd_step k mdE cr (k.bodyField, v) st
      = { st with mdData := some ⟨data.frontmatter, normalizeStr v⟩, mdMod := true } := by
  rw [upd_step]
  simp only [he, Bool.false_eq_true, if_false, hv, if_true]
  rw [upd_body]
  simp only [hmc, if_true, hmd]

theorem upd_step_body_hit_json (k : EntityKind) (mdE cr : Bool) (v : JValue) (st : UpdSt)
    (hmc : (mdE || cr) = false) (hv : v.isNull = false) (he : st.err.isSome = false)
    (href : (alookup st.jrec k.bodyField).bind JValue.asStr = none) :
    upd_step k mdE cr (k.bodyField, v) st
      = { st with
          jrec := aset st.jrec k.bodyField (.str ⟨normalizeStr v⟩),
          jsonMod := true } := by
  rw [upd_step]
  simp only [he, Bool.false_eq_true, if_false, hv, if_true]
  rw [upd_body]
  simp only [hmc, Bool.false_eq_true, if_false, href]

theorem upd_step_body_hit_prompt (k : EntityKind) (mdE cr : Bool) (v : JValue) (st : UpdSt)
    (refStr : String) (promptPath : Path)
    (hmc : (mdE || cr) = false) (hv : v.isNull = false) (he : st.err.isSome = false)
    (href : (alookup st.jrec k.bodyField).bind JValue.asStr = some refStr)
    (hpr : is_prompt_file_reference refStr = true)
    (hres : resolve_prompt_file_path refStr = some promptPath) :
    upd_step k mdE cr (k.bodyField, v) st
      = { st with w := write_prompt_file promptPath (normalizeStr v) st.w } := by
  rw [upd_step]
  simp only [he, Bool.false_eq_true, if_false, hv, if_true]
  rw [upd_body]
  simp only [hmc, Bool.false_eq_true, if_false, href, hpr, if_true, hres]

/-- A body-field edit inside an error-free fold over unique keys, with a
Markdown record present: the final Markdown body is the coerced string. -/
theorem upd_fold_body_md (k : EntityKind) (cr : Bool) (v : JValue)
    (l : List (String × JValue)) (st : UpdSt) (hv : v.isNull = false)
    (hmem : (k.bodyField, v) ∈ l) (hu : uniqueKeys l)
    (hsome : st.mdData.isSome = true) (herr : st.err = none) :
    mdBodyOf (l.foldl (fun s fv => upd_step k true cr fv s) st) = some (normalizeStr v)
    ∧ (l.foldl (fun s fv => upd_step k true cr fv s) st).mdMod = true
    ∧ (l.foldl (fun s fv => upd_step k true cr fv s) st).mdData.isSome = true
    ∧ (l.foldl (fun s fv => upd_step k true cr fv s) st).err = none := by
  obtain ⟨l1, l2, hsp, h1, h2⟩ := mem_uniq_split l k.bodyField v hmem hu
  subst hsp
  rw [List.foldl_append, List.foldl_cons]
  have hf1 := upd_fold_nonbody k true cr l1 st h1
  have hsome1 : (l1.foldl (fun s fv => upd_step k true cr fv s) st).mdData.isSome
      = true := hf1.2.2.1.trans hsome
  have herr1 : (l1.foldl (fun s fv => upd_step k true cr fv s) st).err.isSome = false := by
    rw [hf1.2.2.2.2.2.2, herr]
    rfl
  cases hmdd : (l1.foldl (fun s fv => upd_step k true cr fv s) st).mdData with
  | none =>
    rw [hmdd] at hsome1
    exact absurd hsome1 (by simp)
  | some data =>
    rw [upd_step_body_hit_md k true cr v _ data (by simp) hv herr1 hmdd]
    have hf2 := upd_fold_nonbody k true cr l2
      { (l1.foldl (fun s fv => upd_step k true cr fv s) st) with
          mdData := some ⟨data.frontmatter, normalizeStr v⟩,
          mdMod := true } h2
    refine ⟨hf2.1.trans rfl, hf2.2.2.2.1 rfl, hf2.2.2.1.trans rfl, ?_⟩
    rw [hf2.2.2.2.2.2.2]
    show (l1.foldl (fun s fv => upd_step k true cr fv s) st).err = none
    rw [hf1.2.2.2.2.2.2, herr]

/-- A body-field edit with no Markdown record and no prompt-file reference in
the JSON record: the coerced string is stored inline in the JSON record. -/
theorem upd_fold_body_json (k : EntityKind) (v : JValue)
    (l : List (String × JValue)) (st : UpdSt) (hv : v.isNull = false)
    (hmem : (k.bodyField, v) ∈ l) (hu : uniqueKeys l)
    (herr : st.err = none)
    (href : (alookup st.jrec k.bodyField).bind JValue.asStr = none) :
    alookup (l.foldl (fun s fv => upd_step k false false fv s) st).jrec k.bodyField
      = some (JValue.str ⟨normalizeStr v⟩)
    ∧ (l.foldl (fun s fv => upd_step k false false fv s) st).jsonMod = true
    ∧ (l.foldl (fun s fv => upd_step k false false fv s) st).mdData.isSome
        = st.mdData.isSome
    ∧ (l.foldl (fun s fv => upd_step k false false fv s) st).err = none := by
  obtain ⟨l1, l2, hsp, h1, h2⟩ := mem_uniq_split l k.bodyField v hmem hu
  subst hsp
  rw [List.foldl_append, List.foldl_cons]
  have hf1 := upd_fold_nonbody k false false l1 st h1
  have herr1 : (l1.foldl (fun s fv => upd_step k false false fv s) st).err.isSome
      = false := by
    rw [hf1.2.2.2.2.2.2, herr]
    rfl
  have href1 : (alookup (l1.foldl (fun s fv => upd_step k false false fv s) st).jrec
      k.bodyField).bind JValue.asStr = none := by
    rw [hf1.2.1]
    exact href
  rw [upd_step_body_hit_json k false false v _ rfl hv herr1 href1]
  have hf2 := upd_fold_nonbody k false false l2
    { (l1.foldl (fun s fv => upd_step k false false fv s) st) with
        jrec := aset (l1.foldl (fun s fv => upd_step k false false fv s) st).jrec
          k.bodyField (.str ⟨normalizeStr v⟩),
        jsonMod := true } h2
  refine ⟨hf2.2.1.trans (by simp [alookup_aset_self]), hf2.2.2.2.2.1 rfl, ?_, ?_⟩
  · rw [hf2.2.2.1]
    show (l1.foldl (fun s fv => upd_step k false false fv s) st).mdData.isSome
      = st.mdData.isSome
    exact hf1.2.2.1
  · rw [hf2.2.2.2.2.2.2]
    show (l1.foldl (fun s fv => upd_step k false false fv s) st).err = none
    rw [hf1.2.2.2.2.2.2, herr]

/-- A body-field edit with no Markdown record, redirected through a resolvable
prompt-file reference held by the JSON record: the coerced string is written
to the referenced file. -/
theorem upd_fold_body_prompt (k : EntityKind) (v : JValue)
    (l : List (String × JValue)) (st : UpdSt) (refStr : String) (promptPath : Path)
    (hv : v.isNull = false) (hmem : (k.bodyField, v) ∈ l) (hu : uniqueKeys l)
    (herr : st.err = none)
    (href : (alookup st.jrec k.bodyField).bind JValue.asStr = some refStr)
    (hpr : is_prompt_file_reference refStr = true)
    (hres : resolve_prompt_file_path refStr = some promptPath) :
    (l.foldl (fun s fv => upd_step k false false fv s) st).w
      = write_prompt_file promptPath (normalizeStr v) st.w
    ∧ (l.foldl (fun s fv => upd_step k false false fv s) st).mdData.isSome
        = st.mdData.isSome
    ∧ (l.foldl (fun s fv => upd_step k false false fv s) st).err = none := by
  obtain ⟨l1, l2, hsp, h1, h2⟩ := mem_uniq_split l k.bodyField v hmem hu
  subst hsp
  rw [List.foldl_append, List.foldl_cons]
  have hf1 := upd_fold_nonbody k false false l1 st h1
  have herr1 : (l1.foldl (fun s fv => upd_step k false false fv s) st).err.isSome
      = false := by
    rw [hf1.2.2.2.2.2.2, herr]
    rfl
  have href1 : (alookup (l1.foldl (fun s fv => upd_step k false false fv s) st).jrec
      k.bodyField).bind JValue.asStr = some refStr := by
    rw [hf1.2.1]
    exact href
  rw [upd_step_body_hit_prompt k false false v _ refStr promptPath rfl hv herr1 href1
    hpr hres]
  have hf2 := upd_fold_nonbody k false false l2
    { (l1.foldl (fun s fv => upd_step k false false fv s) st) with
        w := write_prompt_file promptPath (normalizeStr v)
          (l1.foldl (fun s fv => upd_step k false false fv s) st).w } h2
  refine ⟨?_, ?_, ?_⟩
  · rw [hf2.2.2.2.2.2.1]
    show write_prompt_file promptPath (normalizeStr v)
        (l1.foldl (fun s fv => upd_step k false false fv s) st).w = _
    rw [hf1.2.2.2.2.2.1]
  · rw [hf2.2.2.1]
    exact hf1.2.2.1
  · rw [hf2.2.2.2.2.2.2]
    show (l1.foldl (fun s fv => upd_step k false false fv s) st).err = none
    rw [hf1.2.2.2.2.2.2, herr]

/-- The parsed body of a freshly written Markdown file is the trimmed body. -/
theorem mdBodyAt_write_md (w : World) (p : Path) (fm : List (String × JValue))
    (body : List Char) :
    mdBodyAt (write_md_file p fm body w) p = trimChars body := by
  rw [mdBodyAt, parse_md_file, fileTextAt, write_md_file]
  show (parse_md_content
      (match alookup (aset w.files p (.textF (write_md_content fm body))) p with
        | some fc => fileText fc
        | none => [])).body = _
  rw [alookup_aset_self]
  show (parse_md_content (write_md_content fm body)).body = _
  rw [parse_write_md]

/-- Writing a JSON layer does not disturb the Markdown body at another path
(also distinct from the backup sibling). -/
theorem mdBodyAt_write_config (cfg : JValue) (jp : Path) (w : World) (q : Path)
    (h1 : q ≠ jp) (h2 : backup_path jp ≠ some q) :
    mdBodyAt (write_config_at cfg jp w).1 q = mdBodyAt w q := by
  rw [mdBodyAt, mdBodyAt, parse_md_file, parse_md_file, fileTextAt, fileTextAt,
    write_config_at_preserves cfg jp w q h1 h2]

/-- C10: an update or create supplying the body-bearing field with a
non-null, non-string value silently coerces it to the empty string in every
sink: the rewritten Markdown body, the inline JSON string field, the
referenced prompt file's content, and the body of a newly created record —
never an error and never a serialized form of the value. -/
theorem body_value_coercion (k : EntityKind) (name : String) (v : JValue)
    (updates : List (String × JValue)) (wd customPath : Option Path) (w : World)
    (layers : ConfigLayers) (mdPath jp : Path)
    (hv : v.isNull = false) (hvs : v.asStr = none)
    (hmem : (k.bodyField, v) ∈ updates) (huniq : uniqueKeys updates)
    (hlayers : read_config_layers wd customPath w = some layers)
    (hmdp : (get_entity_write_path k name wd none w).2 = mdPath)
    (hjp : json_target_path k name wd layers = jp)
    (hjpnil : jp ≠ []) :
    (existsF w mdPath = true → jp ≠ mdPath → backup_path jp ≠ some mdPath →
      (update_entity k name updates wd customPath w).2 = none
      ∧ mdBodyAt (update_entity k name updates wd customPath w).1 mdPath = [])
    ∧ (∀ rec0 : List (String × JValue), existsF w mdPath = false →
        (get_json_entry_source layers k.sectionKey name).value.bind JValue.asObj
          = some rec0 →
        rec0.isEmpty = false →
        (alookup rec0 k.bodyField).bind JValue.asStr = none →
        (update_entity k name updates wd customPath w).2 = none
        ∧ (∃ finRec : List (String × JValue),
            jsonEntryAt (update_entity k name updates wd customPath w).1 jp
              k.sectionKey name = some (JValue.obj finRec)
            ∧ alookup finRec k.bodyField = some (JValue.str (""))))
    ∧ (∀ (rec0 : List (String × JValue)) (refStr : String) (promptPath : Path),
        existsF w mdPath = false →
        (get_json_entry_source layers k.sectionKey name).value.bind JValue.asObj
          = some rec0 →
        rec0.isEmpty = false →
        (alookup rec0 k.bodyField).bind JValue.asStr = some refStr →
        is_prompt_file_reference refStr = true →
        resolve_prompt_file_path refStr = some promptPath →
        promptPath ≠ jp → backup_path jp ≠ some promptPath →
        (update_entity k name updates wd customPath w).2 = none
        ∧ alookup (update_entity k name updates wd customPath w).1.files promptPath
            = some (FileC.textF []))
    ∧ (∀ cfg : List (String × JValue),
        alookup cfg k.bodyField = some v →
        (∀ d, wd = some d → existsF w (get_project_entity_path d k name) = false) →
        existsF w (get_user_entity_path k name) = false →
        (get_json_entry_source layers k.sectionKey name).present = false →
        create_entity k name cfg wd none customPath w
          = (write_md_file (get_user_entity_path k name)
              (aerase (aerase cfg k.bodyField) ("scope")) [] w, none)) := by
  have hnv : normalizeStr v = [] := by rw [normalizeStr, hvs]
  refine ⟨?_, ?_, ?_, ?_⟩
  · intro hmdE hsep1 hsep2
    have hfinal : ∀ (b : Bool) (C : JValue) (w1 : World), mdBodyAt w1 mdPath = [] →
        ((if b then write_config_at C jp w1 else (w1, none)).2 = none
        ∧ mdBodyAt (if b then write_config_at C jp w1 else (w1, none)).1 mdPath = []) := by
      intro b C w1 hw1
      cases b
      · exact ⟨rfl, hw1⟩
      · exact ⟨(write_config_at_ok C jp w1 hjpnil).1,
          (mdBodyAt_write_config C jp w1 mdPath (fun h => hsep1 h.symm) hsep2).trans hw1⟩
    cases hsv : (get_json_entry_source layers k.sectionKey name).value.bind JValue.asObj with
    | none =>
      simp only [update_entity, hlayers, hmdp, hjp, hmdE, hsv, List.isEmpty_nil,
        Bool.not_true, Bool.not_false, Bool.false_and, Bool.true_and, Bool.and_false,
        Bool.and_true, Bool.false_eq_true, Bool.not_not, if_false, if_true]
      have hfold := upd_fold_body_md k false v updates
        ⟨w, some (parse_md_file w mdPath), [], false, false, none⟩ hv hmem huniq rfl rfl
      obtain ⟨hbody, hmm, hsome, herr2⟩ := hfold
      simp only [herr2, hmm, if_true]
      cases hmdd : (updates.foldl (fun s fv => upd_step k true false fv s)
          ⟨w, some (parse_md_file w mdPath), [], false, false, none⟩).mdData with
      | none =>
        rw [hmdd] at hsome
        exact absurd hsome (by simp)
      | some data =>
        simp only [hmdd]
        have hdb : data.body = [] := by
          rw [mdBodyOf, hmdd] at hbody
          exact (Option.some.inj hbody).trans hnv
        refine ⟨trivial, ?_⟩
        show mdBodyAt (write_md_file mdPath data.frontmatter data.body _) mdPath = []
        rw [mdBodyAt_write_md, hdb]
        rfl
    | some rec0 =>
      simp only [update_entity, hlayers, hmdp, hjp, hmdE, hsv,
        Bool.not_true, Bool.not_false, Bool.false_and, Bool.true_and, Bool.and_false,
        Bool.and_true, Bool.false_eq_true, Bool.not_not, if_false, if_true]
      have hfold := upd_fold_body_md k false v updates
        ⟨w, some (parse_md_file w mdPath), rec0, false, false, none⟩ hv hmem huniq rfl rfl
      obtain ⟨hbody, hmm, hsome, herr2⟩ := hfold
      simp only [herr2, hmm, if_true]
      cases hmdd : (updates.foldl (fun s fv => upd_step k true false fv s)
          ⟨w, some (parse_md_file w mdPath), rec0, false, false, none⟩).mdData with
      | none =>
        rw [hmdd] at hsome
        exact absurd hsome (by simp)
      | some data =>
        simp only [hmdd]
        have hdb : data.body = [] := by
          rw [mdBodyOf, hmdd] at hbody
          exact (Option.some.inj hbody).trans hnv
        refine hfinal _ _ _ ?_
        rw [mdBodyAt_write_md, hdb]
        rfl
  · intro rec0 hmdE hsrcv hoe href
    simp only [update_entity, hlayers, hmdp, hjp, hmdE, hsrcv, hoe,
      Bool.not_true, Bool.not_false, Bool.false_and, Bool.true_and, Bool.and_false,
      Bool.and_true, Bool.false_eq_true, Bool.not_not, if_false, if_true]
    have hfold := upd_fold_body_json k v updates
      ⟨w, none, rec0, false, false, none⟩ hv hmem huniq rfl href
    obtain ⟨hlook, hjm, hsome, herr2⟩ := hfold
    simp only [herr2, hjm, if_true]
    refine ⟨(write_config_at_ok _ jp _ hjpnil).1,
      ⟨(updates.foldl (fun s fv => upd_step k false false fv s)
        ⟨w, none, rec0, false, false, none⟩).jrec, ?_, ?_⟩⟩
    · rw [jsonEntryAt_write_config _ _ _ _ _ hjpnil]
      exact insert_entity_tree_entry _ _ _ _
    · rw [hlook, hnv]
  · intro rec0 refStr promptPath hmdE hsrcv hoe href hpr hres hq1 hq2
    simp only [update_entity, hlayers, hmdp, hjp, hmdE, hsrcv, hoe,
      Bool.not_true, Bool.not_false, Bool.false_and, Bool.true_and, Bool.and_false,
      Bool.and_true, Bool.false_eq_true, Bool.not_not, if_false, if_true]
    have hfold := upd_fold_body_prompt k v updates
      ⟨w, none, rec0, false, false, none⟩ refStr promptPath hv hmem huniq rfl href hpr hres
    obtain ⟨hw, hsome, herr2⟩ := hfold
    have hfinal : ∀ (b : Bool) (C : JValue) (w1 : World),
        alookup w1.files promptPath = some (FileC.textF []) →
        ((if b then write_config_at C jp w1 else (w1, none)).2 = none
        ∧ alookup (if b then write_config_at C jp w1 else (w1, none)).1.files promptPath
            = some (FileC.textF [])) := by
      intro b C w1 hw1
      cases b
      · exact ⟨rfl, hw1⟩
      · exact ⟨(write_config_at_ok C jp w1 hjpnil).1,
          (write_config_at_preserves C jp w1 promptPath hq1 hq2).trans hw1⟩
    simp only [herr2]
    cases hmdd : (updates.foldl (fun s fv => upd_step k false false fv s)
        ⟨w, none, rec0, false, false, none⟩).mdData with
    | some data =>
      rw [hmdd] at hsome
      exact absurd hsome.symm (by simp)
    | none =>
      simp only [hmdd, ite_self]
      refine hfinal _ _ _ ?_
      rw [hw, write_prompt_file]
      show alookup (aset w.files promptPath (.textF (normalizeStr v))) promptPath = _
      rw [alookup_aset_self, hnv]
  · intro cfg hcfg hpA hu2 hpres
    cases wd with
    | none =>
      delta create_entity
      simp only [Bool.false_eq_true, if_false, hu2, hlayers, hpres, hcfg, hvs,
        Option.some_bind]
    | some d =>
      have hpd : existsF w (get_project_entity_path d k name) = false := hpA d rfl
      delta create_entity
      simp only [hpd, Bool.false_eq_true, if_false, hu2, hlayers, hpres, hcfg, hvs,
        Option.some_bind]

def c10WitWorld : World :=
  ⟨[(get_user_entity_path agentKind ("r"),
      FileC.textF (write_md_content [(("x"), JValue.num 1)] [('b')])),
    (get_config_file, FileC.jsonF (JValue.obj []))]⟩

def c10WitLayers : ConfigLayers :=
  (read_config_layers none none c10WitWorld).getD ⟨.null, .null, .null, .null, ⟨[], none, none⟩⟩

/-- C10 witness: a concrete update supplying the agent body field with the
number 3. -/
theorem body_value_coercion_witness :
    (existsF c10WitWorld (get_user_entity_path agentKind ("r")) = true →
      json_target_path agentKind ("r") none c10WitLayers
          ≠ get_user_entity_path agentKind ("r") →
      backup_path (json_target_path agentKind ("r") none c10WitLayers)
          ≠ some (get_user_entity_path agentKind ("r")) →
      (update_entity agentKind ("r") [((("prompt") : String), JValue.num 3)] none none
          c10WitWorld).2 = none
      ∧ mdBodyAt (update_entity agentKind ("r") [((("prompt") : String), JValue.num 3)]
          none none c10WitWorld).1 (get_user_entity_path agentKind ("r")) = [])
    ∧ (∀ rec0 : List (String × JValue),
        existsF c10WitWorld (get_user_entity_path agentKind ("r")) = false →
        (get_json_entry_source c10WitLayers agentKind.sectionKey ("r")).value.bind
            JValue.asObj = some rec0 →
        rec0.isEmpty = false →
        (alookup rec0 agentKind.bodyField).bind JValue.asStr = none →
        (update_entity agentKind ("r") [((("prompt") : String), JValue.num 3)] none none
            c10WitWorld).2 = none
        ∧ (∃ finRec : List (String × JValue),
            jsonEntryAt (update_entity agentKind ("r")
                [((("prompt") : String), JValue.num 3)] none none c10WitWorld).1
              (json_target_path agentKind ("r") none c10WitLayers)
              agentKind.sectionKey ("r") = some (JValue.obj finRec)
            ∧ alookup finRec agentKind.bodyField = some (JValue.str (""))))
    ∧ (∀ (rec0 : List (String × JValue)) (refStr : String) (promptPath : Path),
        existsF c10WitWorld (get_user_entity_path agentKind ("r")) = false →
        (get_json_entry_source c10WitLayers agentKind.sectionKey ("r")).value.bind
            JValue.asObj = some rec0 →
        rec0.isEmpty = false →
        (alookup rec0 agentKind.bodyField).bind JValue.asStr = some refStr →
        is_prompt_file_reference refStr = true →
        resolve_prompt_file_path refStr = some promptPath →
        promptPath ≠ json_target_path agentKind ("r") none c10WitLayers →
        backup_path (json_target_path agentKind ("r") none c10WitLayers)
            ≠ some promptPath →
        (update_entity agentKind ("r") [((("prompt") : String), JValue.num 3)] none none
            c10WitWorld).2 = none
        ∧ alookup (update_entity agentKind ("r") [((("prompt") : String), JValue.num 3)]
              none none c10WitWorld).1.files promptPath = some (FileC.textF []))
    ∧ (∀ cfg : List (String × JValue),
        alookup cfg agentKind.bodyField = some (JValue.num 3) →
        (∀ d, (none : Option Path) = some d →
          existsF c10WitWorld (get_project_entity_path d agentKind ("r")) = false) →
        existsF c10WitWorld (get_user_entity_path agentKind ("r")) = false →
        (get_json_entry_source c10WitLayers agentKind.sectionKey ("r")).present = false →
        create_entity agentKind ("r") cfg none none none c10WitWorld
          = (write_md_file (get_user_entity_path agentKind ("r"))
              (aerase (aerase cfg agentKind.bodyField) ("scope")) [] c10WitWorld, none)) :=
  body_value_coercion agentKind ("r") (JValue.num 3)
    [((("prompt") : String), JValue.num 3)] none none c10WitWorld c10WitLayers
    (get_user_entity_path agentKind ("r"))
    (json_target_path agentKind ("r") none c10WitLayers)
    (by decide) (by decide) (by decide) (by decide) (by decide) (by decide) rfl
    (by decide)

end OpenCfg
